import Mathlib

/-!
Verification of the git-worktree lifecycle manager
(src/pi/extensions/worktree/index.ts) against its specification.

The TypeScript source is shallowly embedded: pure string helpers become Lean
functions on `String` / `List Char`; the effectful command handlers become
writer-style functions over an abstract `World` (the oracle for process
invocations, the filesystem and the interactive UI) that return a result
together with the ordered list of observable events (process executions and
prompts) they emitted.
-/

namespace Worktree

/-! ## Path Allocator: normalizeBranchForPath (index.ts lines 87-97)

The source pipeline is
  trim → strip leading refs/heads/ → toLowerCase
       → replace([^a-z0-9]+ → "-") → replace(-+ → "-")
       → strip leading dashes → strip trailing dashes.
Each global regex replacement is embedded as a left-to-right scan carrying
one bit of state: whether the scan is currently inside a run that has
already emitted its replacement.
-/

/-- Character class of the regex `[a-z0-9]` used by the source. -/
def isSlugChar (c : Char) : Bool :=
  (97 ≤ c.toNat && c.toNat ≤ 122) || (48 ≤ c.toNat && c.toNat ≤ 57)

/-- Scanner for the regex replacement `[^a-z0-9]+ → "-"`. The flag records
whether the previous character was part of a non-alphanumeric run whose
dash has already been emitted. -/
def cnaGo : Bool → List Char → List Char
  | _, [] => []
  | inRun, c :: r =>
    if isSlugChar c then c :: cnaGo false r
    else if inRun then cnaGo true r
    else '-' :: cnaGo true r

/-- Embedding of the regex replacement `[^a-z0-9]+ → "-"`: every maximal run
of characters outside `[a-z0-9]` collapses to a single dash. -/
def collapseNonAlnum (l : List Char) : List Char := cnaGo false l

/-- Scanner for the regex replacement `-+ → "-"`. -/
def cdGo : Bool → List Char → List Char
  | _, [] => []
  | inRun, c :: r =>
    if c = '-' then (if inRun then cdGo true r else '-' :: cdGo true r)
    else c :: cdGo false r

/-- Embedding of the regex replacement `-+ → "-"`: every maximal run of
dashes collapses to a single dash. -/
def collapseDashes (l : List Char) : List Char := cdGo false l

/-- Embedding of the regex replacement `^-+ → ""`. -/
def dropLeadingDashes (l : List Char) : List Char :=
  l.dropWhile (fun d => d == '-')

/-- Embedding of the regex replacement `-+$ → ""`. -/
def dropTrailingDashes (l : List Char) : List Char :=
  (l.reverse.dropWhile (fun d => d == '-')).reverse

/-- Embedding of JavaScript `String.prototype.trim`. -/
def jsTrim (l : List Char) : List Char :=
  ((l.dropWhile Char.isWhitespace).reverse.dropWhile Char.isWhitespace).reverse

/-- Embedding of `replace(/^refs\/heads\//, "")`: strip the literal prefix
when present. -/
def stripRefsHeadsList (l : List Char) : List Char :=
  if l.take ("refs/heads/".toList.length) = "refs/heads/".toList then
    l.drop ("refs/heads/".toList.length)
  else l

/-- Embedding of `normalizeBranchForPath` (index.ts lines 87-97) on
character lists. -/
def normalizeBranchList (l : List Char) : List Char :=
  dropTrailingDashes (dropLeadingDashes (collapseDashes (collapseNonAlnum
    ((stripRefsHeadsList (jsTrim l)).map Char.toLower))))

/-- Embedding of `normalizeBranchForPath` on strings. -/
def normalizeBranchForPath (s : String) : String :=
  ⟨normalizeBranchList s.toList⟩

example : normalizeBranchForPath "refs/heads/Feature/X--1" = "feature-x-1" := by decide
example : normalizeBranchForPath "  ---a_B  " = "a-b" := by decide
example : normalizeBranchForPath "///" = "" := by decide

/-! ### Properties of the normalizer (claim C3) -/

/-- No two adjacent dashes. -/
def NoDoubleDash (l : List Char) : Prop :=
  List.Chain' (fun a b => ¬(a = '-' ∧ b = '-')) l

instance (l : List Char) : Decidable (NoDoubleDash l) := by
  unfold NoDoubleDash; infer_instance

/-- The well-formedness predicate the claim asserts of `normalize` output:
only lowercase ASCII letters, digits and dashes; no leading dash, no
trailing dash, no two consecutive dashes. -/
def SlugOk (l : List Char) : Prop :=
  (∀ c ∈ l, isSlugChar c = true ∨ c = '-') ∧
  l.head? ≠ some '-' ∧
  l.getLast? ≠ some '-' ∧
  NoDoubleDash l

instance (l : List Char) : Decidable (SlugOk l) := by
  unfold SlugOk; infer_instance

lemma cnaGo_cons (b : Bool) (c : Char) (r : List Char) :
    cnaGo b (c :: r) =
    if isSlugChar c then c :: cnaGo false r
    else if b then cnaGo true r
    else '-' :: cnaGo true r := rfl

lemma cdGo_cons (b : Bool) (c : Char) (r : List Char) :
    cdGo b (c :: r) =
    if c = '-' then (if b then cdGo true r else '-' :: cdGo true r)
    else c :: cdGo false r := rfl

lemma isSlugChar_ne_dash {c : Char} (h : isSlugChar c = true) : c ≠ '-' := by
  intro he; subst he; exact absurd h (by decide)

lemma cnaGo_mem (l : List Char) :
    ∀ (b : Bool), ∀ c ∈ cnaGo b l, isSlugChar c = true ∨ c = '-' := by
  induction l with
  | nil => intro b c hc; simp [cnaGo] at hc
  | cons a r ih =>
    intro b c hc
    rw [cnaGo_cons] at hc
    by_cases hs : isSlugChar a = true
    · rw [if_pos hs] at hc
      rcases List.mem_cons.1 hc with rfl | hc
      · exact Or.inl hs
      · exact ih false c hc
    · rw [if_neg hs] at hc
      cases b with
      | true => exact ih true c (by simpa using hc)
      | false =>
        rcases List.mem_cons.1 (by simpa using hc) with rfl | hc2
        · exact Or.inr rfl
        · exact ih true c hc2

lemma cnaGo_true_head (l : List Char) : (cnaGo true l).head? ≠ some '-' := by
  induction l with
  | nil => simp [cnaGo]
  | cons a r ih =>
    rw [cnaGo_cons]
    by_cases hs : isSlugChar a = true
    · rw [if_pos hs]
      intro h
      exact isSlugChar_ne_dash hs (by injection h)
    · simpa [hs] using ih

lemma cnaGo_ndd (l : List Char) : ∀ (b : Bool), NoDoubleDash (cnaGo b l) := by
  induction l with
  | nil => intro b; simp [cnaGo, NoDoubleDash]
  | cons a r ih =>
    intro b
    rw [cnaGo_cons]
    by_cases hs : isSlugChar a = true
    · rw [if_pos hs]
      refine List.chain'_cons'.2 ⟨?_, ih false⟩
      intro y _
      exact fun hy => isSlugChar_ne_dash hs hy.1
    · rw [if_neg hs]
      cases b with
      | true => simpa using ih true
      | false =>
        simp only [Bool.false_eq_true, if_false]
        refine List.chain'_cons'.2 ⟨?_, ih true⟩
        intro y hy hcontra
        exact cnaGo_true_head r (by rw [hy, hcontra.2])

lemma cnaGo_id (l : List Char) :
    ∀ (b : Bool), (∀ c ∈ l, isSlugChar c = true ∨ c = '-') → NoDoubleDash l →
    (b = true → l.head? ≠ some '-') → cnaGo b l = l := by
  induction l with
  | nil => intro b _ _ _; simp [cnaGo]
  | cons a r ih =>
    intro b hall hndd hh
    rcases hall a (List.mem_cons_self a r) with hs | ha
    · rw [cnaGo_cons, if_pos hs]
      congr 1
      exact ih false (fun c hc => hall c (List.mem_cons_of_mem a hc))
        (List.Chain'.tail hndd) (by simp)
    · subst ha
      cases b with
      | true => exact absurd (by simp) (hh rfl)
      | false =>
        rw [cnaGo_cons, if_neg (by decide), if_neg Bool.false_ne_true]
        congr 1
        refine ih true (fun c hc => hall c (List.mem_cons_of_mem _ hc))
          (List.Chain'.tail hndd) ?_
        intro _ hhead
        cases r with
        | nil => simp at hhead
        | cons y t =>
          have hR := (List.chain'_cons.1 hndd).1
          simp only [List.head?_cons, Option.some.injEq] at hhead
          exact hR ⟨rfl, hhead⟩

lemma cdGo_id (l : List Char) :
    ∀ (b : Bool), NoDoubleDash l → (b = true → l.head? ≠ some '-') →
    cdGo b l = l := by
  induction l with
  | nil => intro b _ _; simp [cdGo]
  | cons a r ih =>
    intro b hndd hh
    by_cases ha : a = '-'
    · subst ha
      cases b with
      | true => exact absurd (by simp) (hh rfl)
      | false =>
        rw [cdGo_cons, if_pos rfl, if_neg Bool.false_ne_true]
        congr 1
        refine ih true (List.Chain'.tail hndd) ?_
        intro _ hhead
        cases r with
        | nil => simp at hhead
        | cons y t =>
          have hR := (List.chain'_cons.1 hndd).1
          simp only [List.head?_cons, Option.some.injEq] at hhead
          exact hR ⟨rfl, hhead⟩
    · rw [cdGo_cons, if_neg ha]
      congr 1
      exact ih false (List.Chain'.tail hndd) (by simp)

lemma dropWhile_eq_self_of_head {p : Char → Bool} {l : List Char}
    (h : l.head? ≠ some '-') (hp : ∀ c, p c = true → c = '-') :
    l.dropWhile p = l := by
  cases l with
  | nil => rfl
  | cons a r =>
    rw [List.dropWhile_cons, if_neg]
    intro hpa
    exact h (by simp [hp a hpa])

lemma dropWhile_eq_self_of_all {p : Char → Bool} {l : List Char}
    (h : ∀ c ∈ l, p c = false) : l.dropWhile p = l := by
  cases l with
  | nil => rfl
  | cons a r =>
    rw [List.dropWhile_cons, if_neg]
    simp [h a (List.mem_cons_self a r)]

lemma head?_eq_of_listPrefix {l₁ l₂ : List Char} (h : l₁ <+: l₂) (hne : l₁ ≠ []) :
    l₂.head? = l₁.head? := by
  obtain ⟨t, rfl⟩ := h
  cases l₁ with
  | nil => exact absurd rfl hne
  | cons a r => rfl

/-- The output of the normalizer satisfies the claimed well-formedness. -/
lemma normalizeBranchList_slugOk (l : List Char) : SlugOk (normalizeBranchList l) := by
  unfold normalizeBranchList
  set m : List Char := collapseNonAlnum ((stripRefsHeadsList (jsTrim l)).map Char.toLower)
    with hm
  have hall : ∀ c ∈ m, isSlugChar c = true ∨ c = '-' := cnaGo_mem _ false
  have hndd : NoDoubleDash m := cnaGo_ndd _ false
  have hcd : collapseDashes m = m := cdGo_id m false hndd (by simp)
  rw [hcd]
  have hm2suffix : dropLeadingDashes m <:+ m := List.dropWhile_suffix _
  have hall2 : ∀ c ∈ dropLeadingDashes m, isSlugChar c = true ∨ c = '-' :=
    fun c hc => hall c (hm2suffix.subset hc)
  have hndd2 : NoDoubleDash (dropLeadingDashes m) := List.Chain'.suffix hndd hm2suffix
  have hhead2 : (dropLeadingDashes m).head? ≠ some '-' := by
    have hdw := List.head?_dropWhile_not (fun d => d == '-') m
    intro hcontra
    rw [show dropLeadingDashes m = List.dropWhile (fun d => d == '-') m from rfl] at hcontra
    rw [hcontra] at hdw
    simp at hdw
  set m2 : List Char := dropLeadingDashes m with hm2
  have hrev : (dropTrailingDashes m2).reverse = m2.reverse.dropWhile (fun d => d == '-') := by
    simp [dropTrailingDashes]
  have hm3pref : dropTrailingDashes m2 <+: m2 := by
    have h1 : (dropTrailingDashes m2).reverse <:+ m2.reverse :=
      hrev ▸ List.dropWhile_suffix _
    exact List.reverse_suffix.1 h1
  refine ⟨?_, ?_, ?_, ?_⟩
  · exact fun c hc => hall2 c (hm3pref.subset hc)
  · intro hcontra
    have hne : dropTrailingDashes m2 ≠ [] := by
      intro hnil; rw [hnil] at hcontra; simp at hcontra
    exact hhead2 (by rw [head?_eq_of_listPrefix hm3pref hne, hcontra])
  · have hdw := List.head?_dropWhile_not (fun d => d == '-') m2.reverse
    rw [← hrev, List.head?_reverse] at hdw
    intro hcontra
    rw [hcontra] at hdw
    simp at hdw
  · exact List.Chain'.prefix hndd2 hm3pref

lemma slug_not_whitespace {c : Char} (h : isSlugChar c = true ∨ c = '-') :
    c.isWhitespace = false := by
  rcases h with h | rfl
  · by_cases h1 : c = ' '
    · subst h1; exact absurd h (by decide)
    by_cases h2 : c = '\t'
    · subst h2; exact absurd h (by decide)
    by_cases h3 : c = '\x0d'
    · subst h3; exact absurd h (by decide)
    by_cases h4 : c = '\n'
    · subst h4; exact absurd h (by decide)
    simp [Char.isWhitespace, h1, h2, h3, h4]
  · decide

lemma slug_toLower {c : Char} (h : isSlugChar c = true ∨ c = '-') :
    c.toLower = c := by
  unfold Char.toLower
  rw [if_neg]
  intro ⟨h1, h2⟩
  rcases h with h | rfl
  · simp only [isSlugChar, Bool.or_eq_true, Bool.and_eq_true, decide_eq_true_eq] at h
    omega
  · exact absurd h1 (by decide)

lemma map_toLower_id {l : List Char}
    (hall : ∀ c ∈ l, isSlugChar c = true ∨ c = '-') :
    l.map Char.toLower = l := by
  induction l with
  | nil => rfl
  | cons a r ih =>
    simp only [List.map_cons, List.cons.injEq]
    exact ⟨slug_toLower (hall a (List.mem_cons_self a r)),
      ih (fun c hc => hall c (List.mem_cons_of_mem a hc))⟩

/-- The normalizer is the identity on well-formed slugs. -/
lemma normalizeBranchList_id {l : List Char} (h : SlugOk l) :
    normalizeBranchList l = l := by
  obtain ⟨hall, hhead, hlast, hndd⟩ := h
  have hws : ∀ c ∈ l, c.isWhitespace = false := fun c hc => slug_not_whitespace (hall c hc)
  have htrim : jsTrim l = l := by
    unfold jsTrim
    rw [dropWhile_eq_self_of_all hws]
    rw [dropWhile_eq_self_of_all (fun c hc => hws c (List.mem_reverse.1 hc))]
    exact List.reverse_reverse l
  have hstrip : stripRefsHeadsList l = l := by
    rw [stripRefsHeadsList, if_neg]
    intro hcontra
    have hmem : '/' ∈ l.take ("refs/heads/".toList.length) := by
      simp only [hcontra]; decide
    exact absurd (hall '/' (List.take_subset _ l hmem)) (by decide)
  have hcna : collapseNonAlnum l = l := cnaGo_id l false hall hndd (by simp)
  have hcd : collapseDashes l = l := cdGo_id l false hndd (by simp)
  have hdl : dropLeadingDashes l = l :=
    dropWhile_eq_self_of_head hhead (fun c hc => by simpa using hc)
  have hdt : dropTrailingDashes l = l := by
    unfold dropTrailingDashes
    rw [dropWhile_eq_self_of_head (by rw [List.head?_reverse]; exact hlast)
      (fun c hc => by simpa using hc)]
    exact List.reverse_reverse l
  rw [normalizeBranchList, htrim, hstrip, map_toLower_id hall, hcna, hcd, hdl, hdt]

/-! ## Structural embeddings of the JavaScript string methods

Lean's built-in `String.trim`, `String.splitOn`, `String.startsWith`, … are
implemented by well-founded recursion on byte positions and do not reduce
in the kernel; the model uses these structural character-list versions of
the JavaScript methods instead. -/

/-- Embedding of `String.prototype.trim` on strings. -/
def jsTrimS (s : String) : String := ⟨jsTrim s.toList⟩

/-- Embedding of `String.prototype.trimEnd`. -/
def jsTrimEnd (s : String) : String :=
  ⟨(s.toList.reverse.dropWhile Char.isWhitespace).reverse⟩

/-- Splitting loop of `String.prototype.split` with a one-character
separator; keeps empty pieces, like JavaScript. -/
def splitPredGo (p : Char → Bool) (acc : List Char) : List Char → List String
  | [] => [⟨acc.reverse⟩]
  | c :: r => if p c then ⟨acc.reverse⟩ :: splitPredGo p [] r else splitPredGo p (c :: acc) r

/-- Embedding of `split(/\s+/)`-style splitting: split at every matching
character (empty pieces are filtered by the callers, as in the source). -/
def jsSplitPred (p : Char → Bool) (s : String) : List String :=
  splitPredGo p [] s.toList

/-- Embedding of `String.prototype.split("\n")` and other one-character
separators. -/
def jsSplitChar (sep : Char) (s : String) : List String :=
  splitPredGo (fun c => c == sep) [] s.toList

/-- Embedding of `String.prototype.startsWith`. -/
def jsStartsWith (s p : String) : Bool :=
  s.toList.take p.length == p.toList

/-- Embedding of `String.prototype.endsWith`. -/
def jsEndsWith (s p : String) : Bool :=
  s.toList.reverse.take p.length == p.toList.reverse

/-- Embedding of `String.prototype.toLowerCase` (ASCII range). -/
def jsToLowerS (s : String) : String := ⟨s.toList.map Char.toLower⟩

/-- Embedding of `String.prototype.toUpperCase` (ASCII range). -/
def jsToUpperS (s : String) : String := ⟨s.toList.map Char.toUpper⟩

/-- Embedding of `String.prototype.includes` for one character. -/
def jsContainsChar (s : String) (c : Char) : Bool := s.toList.contains c

/-- Fuel-indexed loop of `split(sep).join(repl)` (replace every occurrence
of `sep`); the fuel is the input length, enough for every occurrence. -/
def replaceAllGo (sep repl : List Char) : Nat → List Char → List Char
  | _, [] => []
  | 0, l => l
  | Nat.succ fuel, c :: r =>
    if (c :: r).take sep.length = sep ∧ sep ≠ [] then
      repl ++ replaceAllGo sep repl fuel ((c :: r).drop sep.length)
    else c :: replaceAllGo sep repl fuel r

/-- Embedding of `s.split(sep).join(repl)` (JavaScript replace-all). -/
def jsReplaceAllS (s sep repl : String) : String :=
  ⟨replaceAllGo sep.toList repl.toList s.toList.length s.toList⟩

/-- Embedding of `[xs].join("\n")`. -/
def joinLines : List String → String
  | [] => ""
  | [x] => x
  | x :: r => x ++ "\n" ++ joinLines r

/-! ## Data model (index.ts lines 35-79) -/

/-- Policy for dirty worktrees during archive (type DirtyAction). -/
inductive DirtyAction where
  | skip | stash | force | prompt
deriving DecidableEq, Repr

/-- Working-tree status (type DirtyState). -/
inductive DirtyState where
  | clean | dirty | unknown
deriving DecidableEq, Repr

/-- Parsed record of `git worktree list --porcelain` (interface WorktreeInfo).
Optional booleans of the source are embedded as `Bool` (absent = false). -/
structure WorktreeInfo where
  path : String
  head : Option String
  branchRef : Option String
  detached : Bool
  locked : Bool
  lockedReason : Option String
deriving DecidableEq, Repr

/-- Repository topology (interface RepoInfo). -/
structure RepoInfo where
  mainRoot : String
  currentRoot : String
  projectName : String
  parentDir : String
deriving DecidableEq, Repr

/-- Result of one archive attempt (interface ArchiveOutcome). -/
structure ArchiveOutcome where
  branch : String
  worktreePath : String
  removed : Bool
  branchDeleted : Bool
  skippedReason : Option String
deriving DecidableEq, Repr

/-- Result of maybeSwitchMainToDefaultBranch (interface SwitchMainResult). -/
structure SwitchMainResult where
  proceed : Bool
  switched : Bool
  stashedHash : Option String
deriving DecidableEq, Repr

/-- A detected project script (interface SetupAction). -/
structure SetupAction where
  label : String
  command : String
  source : String
deriving DecidableEq, Repr

/-- Filesystem state of a worktree path (type WorktreePathState). -/
inductive WorktreePathState where
  | ok | missing | invalidPath | inaccessible
deriving DecidableEq, Repr

/-! ## Effect model

Every process invocation (`pi.exec`), detached spawn and UI interaction is
recorded as an `Event`; the environment answering them is a `World`. All
oracles are deterministic functions of the request, except `ui.input`
answers, which are consumed in order from an explicit list (so that the
path-conflict prompt loop terminates on any finite script of answers). -/

/-- Result of a process invocation (`pi.exec`): exit code, output streams,
and whether the process was killed by the timeout. -/
structure ExecResult where
  code : Int
  stdout : String
  stderr : String
  killed : Bool
deriving DecidableEq, Repr

/-- Observable events emitted by the embedded handlers, in program order. -/
inductive Event where
  | proc (prog : String) (args : List String) (cwd : String) (code : Int)
  | spawned (prog : String) (args : List String)
  | confirmEv (title : String) (body : String) (answer : Bool)
  | selectEv (title : String) (options : List String) (answer : Option String)
  | inputEv (prompt : String) (dflt : String) (answer : Option String)
  | notifyEv (msg : String) (level : String)
deriving DecidableEq, Repr

/-- The environment: oracles for process execution, the filesystem-derived
predicates the source consults, and the interactive UI capability. -/
structure World where
  exec : String → List String → String → ExecResult
  confirm : String → String → Bool
  selectAns : String → List String → Option String
  hasUI : Bool
  cwd : String
  sameOrInside : String → String → Bool
  realp : String → String
  nonEmptyAt : String → Bool
  isFileAt : String → Bool
  readFileAt : String → Option String
  setupActionsAt : String → List SetupAction
  archiveActionsAt : String → List SetupAction
  copyEntryErr : String → Option String
  existsAt : String → Bool
  pathStateAt : String → WorktreePathState
  matchGlob : String → String → Bool
  dirname : String → String
  basename : String → String
  joinPath : String → String → String
  resolveRel : String → String → String
  envTMUX : Bool
  ghosttyAvail : Bool
  platformDarwin : Bool
  envPATH : Option String
  terminalFlag : Option String
  listUiChoice : Option (Bool × Nat)

/-- Combined stdout/stderr detail string used in error messages:
`[stdout.trim, stderr.trim].filter(Boolean).join("\n")`. -/
def detailsOf (r : ExecResult) : String :=
  joinLines (([jsTrimS r.stdout, jsTrimS r.stderr]).filter (fun s => s ≠ ""))

/-- Embedding of the `git` helper (index.ts lines 191-198): one `pi.exec`
of the git binary, recorded as one event. -/
def gitM (w : World) (cwd : String) (args : List String) : ExecResult × List Event :=
  let r := w.exec "git" args cwd
  (r, [Event.proc "git" args cwd r.code])

/-- Embedding of `mustGitStdout` (index.ts lines 200-207). -/
def mustGitStdoutM (w : World) (cwd : String) (args : List String) (errorPrefix : String) :
    Except String String × List Event :=
  let g := gitM w cwd args
  if g.1.code ≠ 0 then
    (.error (errorPrefix ++ (if detailsOf g.1 ≠ "" then "\n" ++ detailsOf g.1 else "")), g.2)
  else (.ok g.1.stdout, g.2)

/-- Embedding of `getRepoInfo` (index.ts lines 209-229). -/
def getRepoInfoM (w : World) (cwd : String) : Except String RepoInfo × List Event :=
  let g1 := mustGitStdoutM w cwd
    ["rev-parse", "--path-format=absolute", "--show-toplevel"] "Not a git repository"
  match g1.1 with
  | .error msg => (.error msg, g1.2)
  | .ok out1 =>
    let currentRoot := jsTrimS out1
    let g2 := mustGitStdoutM w cwd
      ["rev-parse", "--path-format=absolute", "--git-common-dir"] "Not a git repository"
    match g2.1 with
    | .error msg => (.error msg, g1.2 ++ g2.2)
    | .ok out2 =>
      let commonDir := jsTrimS out2
      let mainRoot := w.dirname commonDir
      (.ok { mainRoot := mainRoot, currentRoot := currentRoot,
             projectName := w.basename mainRoot, parentDir := w.dirname mainRoot },
       g1.2 ++ g2.2)

/-- One partially parsed porcelain record: flushed only when its path is a
truthy (non-empty) string, mirroring the `current?.path` checks. -/
def flushPorcelain (cur : Option WorktreeInfo) : List WorktreeInfo :=
  match cur with
  | some c => if c.path ≠ "" then [c] else []
  | none => []

/-- Line-by-line loop of `parseWorktreeListPorcelain` (index.ts lines 231-289). -/
def parsePorcelainGo (cur : Option WorktreeInfo) : List String → List WorktreeInfo
  | [] => flushPorcelain cur
  | rawLine :: rest =>
    let line := jsTrimEnd rawLine
    if jsTrimS line = "" then
      flushPorcelain cur ++ parsePorcelainGo none rest
    else if jsStartsWith line "worktree " then
      flushPorcelain cur ++ parsePorcelainGo (some
        { path := jsTrimS (line.drop "worktree ".length), head := none, branchRef := none,
          detached := false, locked := false, lockedReason := none }) rest
    else
      match cur with
      | none => parsePorcelainGo none rest
      | some c =>
        if jsStartsWith line "HEAD " then
          parsePorcelainGo (some { c with head := some (jsTrimS (line.drop "HEAD ".length)) }) rest
        else if jsStartsWith line "branch " then
          parsePorcelainGo (some { c with branchRef := some (jsTrimS (line.drop "branch ".length)) }) rest
        else if line = "detached" then
          parsePorcelainGo (some { c with detached := true }) rest
        else if line = "locked" then
          parsePorcelainGo (some { c with locked := true }) rest
        else if jsStartsWith line "locked " then
          parsePorcelainGo (some { c with locked := true, lockedReason := some (jsTrimS (line.drop "locked ".length)) }) rest
        else
          parsePorcelainGo (some c) rest

/-- Embedding of `parseWorktreeListPorcelain` (index.ts lines 231-289). -/
def parseWorktreeListPorcelain (stdout : String) : List WorktreeInfo :=
  parsePorcelainGo none (jsSplitChar '\n' stdout)

/-- Embedding of `pruneWorktrees` (index.ts lines 291-295): best-effort, the
exit code is ignored. -/
def pruneWorktreesM (w : World) (repoRoot : String) : Unit × List Event :=
  ((), (gitM w repoRoot ["worktree", "prune"]).2)

/-- Embedding of `listWorktrees` (index.ts lines 297-300). -/
def listWorktreesM (w : World) (repoRoot : String) :
    Except String (List WorktreeInfo) × List Event :=
  let g := mustGitStdoutM w repoRoot ["worktree", "list", "--porcelain"]
    "Failed to list worktrees"
  match g.1 with
  | .error msg => (.error msg, g.2)
  | .ok stdout => (.ok (parseWorktreeListPorcelain stdout), g.2)

/-- Embedding of `branchNameFromRef` (index.ts lines 302-304). -/
def branchNameFromRef (ref : String) : String :=
  if jsStartsWith ref "refs/heads/" then ref.drop "refs/heads/".length else ref

/-- Embedding of `getHeadBranch` (index.ts lines 306-312). -/
def getHeadBranchM (w : World) (cwd : String) : Option String × List Event :=
  let g := gitM w cwd ["rev-parse", "--abbrev-ref", "HEAD"]
  if g.1.code ≠ 0 then (none, g.2)
  else
    let name := jsTrimS g.1.stdout
    if name = "" ∨ name = "HEAD" then (none, g.2) else (some name, g.2)

/-- Embedding of `isDirty` (index.ts lines 314-318). -/
def isDirtyM (w : World) (cwd : String) : Bool × List Event :=
  let g := gitM w cwd ["status", "--porcelain"]
  (if g.1.code ≠ 0 then false else (jsTrimS g.1.stdout).length > 0, g.2)

/-- Embedding of `getDirtyState` (index.ts lines 320-324). -/
def getDirtyStateM (w : World) (cwd : String) : DirtyState × List Event :=
  let g := gitM w cwd ["status", "--porcelain"]
  (if g.1.code ≠ 0 then DirtyState.unknown
   else if (jsTrimS g.1.stdout).length > 0 then DirtyState.dirty else DirtyState.clean, g.2)

/-- Embedding of `stashAll` (index.ts lines 326-338). -/
def stashAllM (w : World) (cwd : String) (message : String) :
    Except String (Option String) × List Event :=
  let g := gitM w cwd ["stash", "push", "-u", "-m", message]
  if g.1.code ≠ 0 then
    (.error ("Failed to stash changes" ++
      (if detailsOf g.1 ≠ "" then "\n" ++ detailsOf g.1 else "")), g.2)
  else
    let g2 := gitM w cwd ["rev-parse", "--verify", "--quiet", "stash@{0}"]
    if g2.1.code ≠ 0 then (.ok none, g.2 ++ g2.2)
    else
      let hash := jsTrimS g2.1.stdout
      (.ok (if hash.length > 0 then some hash else none), g.2 ++ g2.2)

/-- Embedding of `findStashIndexByHash` (index.ts lines 340-351). -/
def findStashIndexByHashM (w : World) (repoRoot : String) (stashHash : String) :
    Option Nat × List Event :=
  let g := gitM w repoRoot ["stash", "list", "--format=%H"]
  if g.1.code ≠ 0 then (none, g.2)
  else
    let hashes := ((jsSplitChar '\n' g.1.stdout).map (fun l => jsTrimS l)).filter (fun l => l ≠ "")
    (hashes.findIdx? (fun h => h = stashHash), g.2)

/-- Embedding of `applyStashToWorktree` (index.ts lines 353-376). -/
def applyStashToWorktreeM (w : World) (repoRoot worktreePath stashHash : String) :
    Except String Unit × List Event :=
  let f := findStashIndexByHashM w repoRoot stashHash
  match f.1 with
  | some i =>
    let g := gitM w worktreePath ["stash", "pop", "stash@\x7b" ++ toString i ++ "\x7d"]
    if g.1.code ≠ 0 then
      (.error ("Failed to pop stash into " ++ worktreePath ++
        (if detailsOf g.1 ≠ "" then "\n" ++ detailsOf g.1 else "")), f.2 ++ g.2)
    else (.ok (), f.2 ++ g.2)
  | none =>
    let g := gitM w worktreePath ["stash", "apply", stashHash]
    if g.1.code ≠ 0 then
      (.error ("Failed to apply stash into " ++ worktreePath ++
        (if detailsOf g.1 ≠ "" then "\n" ++ detailsOf g.1 else "")), f.2 ++ g.2)
    else (.ok (), f.2 ++ g.2)

/-- Embedding of `localBranchExists` (index.ts lines 378-381). -/
def localBranchExistsM (w : World) (repoRoot branch : String) : Bool × List Event :=
  let g := gitM w repoRoot ["show-ref", "--verify", "--quiet", "refs/heads/" ++ branch]
  (g.1.code = 0, g.2)

/-- Embedding of `getUpstream` (index.ts lines 383-392). -/
def getUpstreamM (w : World) (repoRoot branch : String) : Option String × List Event :=
  let g := gitM w repoRoot
    ["for-each-ref", "--format=%(upstream:short)", "refs/heads/" ++ branch]
  if g.1.code ≠ 0 then (none, g.2)
  else
    let upstream := jsTrimS g.1.stdout
    (if upstream.length > 0 then some upstream else none, g.2)

/-- The upstream answer determined by the world alone (the value component
of `getUpstreamM`). -/
def getUpstreamPure (w : World) (repoRoot branch : String) : Option String :=
  (getUpstreamM w repoRoot branch).1

/-- Embedding of JavaScript `Number.parseInt(s, 10)` on whitespace-free
tokens: optional sign, then a maximal digit prefix; NaN when no digits. -/
def parseIntJS (s : String) : Option Int :=
  let (neg, rest) :=
    if jsStartsWith s "-" then (true, s.drop 1)
    else if jsStartsWith s "+" then (false, s.drop 1)
    else (false, s)
  let digits := rest.toList.takeWhile (fun c => c.isDigit)
  if digits.isEmpty then none
  else
    let n : Nat := digits.foldl (fun acc c => acc * 10 + (c.toNat - 48)) 0
    some (if neg then -(n : Int) else (n : Int))

/-- Embedding of `getAheadBehind` (index.ts lines 394-409). -/
def getAheadBehindM (w : World) (repoRoot branch upstream : String) :
    Option (Int × Int) × List Event :=
  let g := gitM w repoRoot
    ["rev-list", "--left-right", "--count", branch ++ "..." ++ upstream]
  if g.1.code ≠ 0 then (none, g.2)
  else
    let parts := (jsSplitPred (fun c => c.isWhitespace) (jsTrimS g.1.stdout)).filter (fun s => s ≠ "")
    match parseIntJS ((parts.get? 0).getD ""), parseIntJS ((parts.get? 1).getD "") with
    | some ahead, some behind => (some (ahead, behind), g.2)
    | _, _ => (none, g.2)

/-- Inner candidate loop of `getDefaultMainBranch` (index.ts lines 422-424). -/
def defaultMainLoopM (w : World) (repoRoot : String) : List String → String × List Event
  | [] => ("main", [])
  | c :: rest =>
    let ex := localBranchExistsM w repoRoot c
    if ex.1 then (c, ex.2)
    else
      let r := defaultMainLoopM w repoRoot rest
      (r.1, ex.2 ++ r.2)

/-- Embedding of `getDefaultMainBranch` (index.ts lines 411-427). Note the
source returns the remote-HEAD candidate whether or not it exists locally;
the existence query is still issued. -/
def getDefaultMainBranchM (w : World) (repoRoot : String) : String × List Event :=
  let g := gitM w repoRoot
    ["symbolic-ref", "--quiet", "--short", "refs/remotes/origin/HEAD"]
  if g.1.code = 0 ∧ jsStartsWith (jsTrimS g.1.stdout) "origin/" then
    let candidate := (jsTrimS g.1.stdout).drop "origin/".length
    let ex := localBranchExistsM w repoRoot candidate
    (candidate, g.2 ++ ex.2)
  else
    let r := defaultMainLoopM w repoRoot ["main", "master", "trunk"]
    (r.1, g.2 ++ r.2)

/-- Embedding of `defaultWorktreePath` (index.ts lines 429-433). -/
def defaultWorktreePath (w : World) (repo : RepoInfo) (branch : String) : Option String :=
  let normalized := normalizeBranchForPath branch
  if normalized = "" then none
  else some (w.joinPath repo.parentDir (repo.projectName ++ "-" ++ normalized))

/-- Embedding of `worktreeAtPath` (index.ts lines 465-468). -/
def worktreeAtPath (w : World) (worktrees : List WorktreeInfo) (candidatePath : String) :
    Option WorktreeInfo :=
  let resolved := w.realp candidatePath
  worktrees.find? (fun wt => w.realp wt.path = resolved)



/-! ## Claim C3: the normalizer is idempotent and produces clean slugs -/

/-- C3: for every input string, `normalizeBranchForPath` is idempotent, and
its output contains only lowercase ASCII letters, digits and dashes, with
no leading dash, no trailing dash, and no two consecutive dashes. -/
theorem normalizeBranchForPath_idempotent_wellformed (s : String) :
    normalizeBranchForPath (normalizeBranchForPath s) = normalizeBranchForPath s ∧
    SlugOk (normalizeBranchForPath s).toList := by
  have hok : SlugOk (normalizeBranchList s.toList) := normalizeBranchList_slugOk s.toList
  refine ⟨?_, hok⟩
  show (⟨normalizeBranchList (normalizeBranchList s.toList)⟩ : String)
      = ⟨normalizeBranchList s.toList⟩
  rw [normalizeBranchList_id hok]

/-! ## Claim C8: a failed status query is never reported as dirty -/

/-- C8: whenever the working-tree status query for a path exits non-zero,
`getDirtyState` returns `unknown` and `isDirty` returns `false`. -/
theorem failed_status_never_dirty (w : World) (p : String)
    (h : (w.exec "git" ["status", "--porcelain"] p).code ≠ 0) :
    (getDirtyStateM w p).1 = DirtyState.unknown ∧ (isDirtyM w p).1 = false := by
  unfold getDirtyStateM isDirtyM gitM
  simp [h]

/-- Witness world answering every request with a fixed failure. -/
def failWorld : World where
  exec := fun _ _ _ => { code := 1, stdout := "", stderr := "boom", killed := false }
  confirm := fun _ _ => false
  selectAns := fun _ _ => none
  hasUI := false
  cwd := "/cwd"
  sameOrInside := fun _ _ => false
  realp := fun p => p
  nonEmptyAt := fun _ => false
  isFileAt := fun _ => false
  readFileAt := fun _ => none
  setupActionsAt := fun _ => []
  archiveActionsAt := fun _ => []
  copyEntryErr := fun _ => none
  existsAt := fun _ => false
  pathStateAt := fun _ => WorktreePathState.missing
  matchGlob := fun _ _ => false
  dirname := fun p => p
  basename := fun p => p
  joinPath := fun a b => a ++ "/" ++ b
  resolveRel := fun a b => a ++ "/" ++ b
  envTMUX := false
  ghosttyAvail := false
  platformDarwin := false
  envPATH := none
  terminalFlag := none
  listUiChoice := none

theorem failed_status_never_dirty_witness :
    (failWorld.exec "git" ["status", "--porcelain"] "/wt").code ≠ 0 ∧
    (getDirtyStateM failWorld "/wt").1 = DirtyState.unknown ∧
    (isDirtyM failWorld "/wt").1 = false :=
  ⟨by decide, failed_status_never_dirty failWorld "/wt" (by decide)⟩

/-! ## Project scripts (index.ts lines 146-167, 526-636, 837-885) -/

/-- Embedding of JavaScript `Array.prototype.indexOf`. -/
def jsIndexOf (l : List String) (x : String) : Int :=
  match l.findIdx? (fun y => y = x) with
  | some i => (i : Int)
  | none => -1

/-- Embedding of `formatPhaseScriptStatus` (index.ts lines 146-159). -/
def formatPhaseScriptStatus (verb phase label : String) : String :=
  let suffix := " " ++ phase
  if jsEndsWith (jsToLowerS label) suffix then
    let source := jsTrimS (label.dropRight suffix.length)
    if source.length > 0 then verb ++ " " ++ phase ++ " for " ++ source
    else verb ++ " " ++ label
  else verb ++ " " ++ label

/-- Embedding of `phase[0].toUpperCase() + phase.slice(1)` (index.ts line 872). -/
def capitalizeJS (s : String) : String :=
  jsToUpperS (s.take 1) ++ s.drop 1

/-- The final run-and-report step of `runProjectScripts`
(index.ts lines 872-884). -/
def runChosenScriptM (w : World) (worktreeRoot phase : String) (chosen : SetupAction) :
    Except String Unit × List Event :=
  let r := w.exec "bash" ["-c", chosen.command] worktreeRoot
  let ev := [Event.proc "bash" ["-c", chosen.command] worktreeRoot r.code]
  if r.code ≠ 0 then
    (.error (capitalizeJS phase ++ " failed (exit " ++ toString r.code ++
      "). Run this manually in " ++ worktreeRoot ++ ":\n" ++ chosen.command), ev)
  else
    (.ok (), ev ++ [Event.notifyEv (formatPhaseScriptStatus "Finished" phase chosen.label) "info"])

/-- Embedding of `runProjectScripts` (index.ts lines 837-885). -/
def runProjectScriptsM (w : World) (worktreeRoot phase : String)
    (actions : List SetupAction) : Except String Unit × List Event :=
  if ¬w.hasUI ∨ actions.length = 0 then (.ok (), [])
  else
    match actions with
    | [action] =>
      let title := "Run worktree " ++ phase ++ "?"
      let body := action.label ++ "\n\nCommand:\n" ++ action.command
      let ok := w.confirm title body
      let e1 := [Event.confirmEv title body ok]
      if ok then
        let r := runChosenScriptM w worktreeRoot phase action
        (r.1, e1 ++ r.2)
      else (.ok (), e1)
    | _ =>
      let options := "Skip" :: actions.map (fun a => a.label ++ " (" ++ a.source ++ ")")
      let title := "Choose " ++ phase ++ " script to run"
      let choice := w.selectAns title options
      let e1 := [Event.selectEv title options choice]
      match choice with
      | none => (.ok (), e1)
      | some ch =>
        if ch = "Skip" then (.ok (), e1)
        else
          let idx : Int := jsIndexOf options ch - 1
          match (if idx < 0 then none else actions.get? idx.toNat) with
          | none => (.ok (), e1)
          | some chosen =>
            let ctitle := "Run worktree " ++ phase ++ "?"
            let cbody := chosen.label ++ "\n\nCommand:\n" ++ chosen.command
            let cok := w.confirm ctitle cbody
            let e2 := [Event.confirmEv ctitle cbody cok]
            if cok then
              let r := runChosenScriptM w worktreeRoot phase chosen
              (r.1, e1 ++ e2 ++ r.2)
            else (.ok (), e1 ++ e2)

/-! ## Archive decision engine: archiveWorktree (index.ts lines 1243-1431) -/

/-- An ArchiveOutcome for a skipped archive attempt. -/
def skipOutcome (branch wtPath reason : String) : ArchiveOutcome :=
  { branch := branch, worktreePath := wtPath, removed := false,
    branchDeleted := false, skippedReason := some reason }

/-- An ArchiveOutcome after the worktree was removed. -/
def removedOutcome (branch wtPath : String) (deleted : Bool) : ArchiveOutcome :=
  { branch := branch, worktreePath := wtPath, removed := true,
    branchDeleted := deleted, skippedReason := none }

/-- Skip reason for a locked worktree (index.ts line 1270 and 1545):
`wt.lockedReason ? "locked: " + reason : "locked"` with JS truthiness. -/
def lockedSkipReason (wt : WorktreeInfo) : String :=
  if wt.lockedReason.getD "" ≠ "" then "locked: " ++ wt.lockedReason.getD "" else "locked"

/-- Worktree lookup of `archiveWorktree` (index.ts lines 1252-1254): use the
given worktree, or find the branch in a fresh registry listing. -/
def archiveLookupM (w : World) (repo : RepoInfo) (branch : String)
    (worktree : Option WorktreeInfo) : Except String (Option WorktreeInfo) × List Event :=
  match worktree with
  | some wt => (.ok (some wt), [])
  | none =>
    let l := listWorktreesM w repo.mainRoot
    match l.1 with
    | .error msg => (.error msg, l.2)
    | .ok wts =>
      (.ok (wts.find? (fun wt => wt.branchRef == some ("refs/heads/" ++ branch))), l.2)

/-- Resolution of the effective dirty action (index.ts lines 1294-1318):
for the `prompt` policy, ask the user to choose stash/force/cancel. -/
def archiveDirtyChoiceM (w : World) (branch wtPath : String) (dirtyAction : DirtyAction) :
    Except String (Sum ArchiveOutcome DirtyAction) × List Event :=
  match dirtyAction with
  | .prompt =>
    if ¬w.hasUI then
      (.error ("Cannot archive dirty worktree without UI: " ++ wtPath), [])
    else
      let title := "Worktree has uncommitted changes: " ++ wtPath
      let options := ["Stash changes (including untracked) and archive",
        "Force remove (lose changes)", "Cancel"]
      let choice := w.selectAns title options
      let ev := [Event.selectEv title options choice]
      match choice with
      | none => (.ok (.inl (skipOutcome branch wtPath "cancelled")), ev)
      | some ch =>
        if ch = "Cancel" then (.ok (.inl (skipOutcome branch wtPath "cancelled")), ev)
        else (.ok (.inr (if jsStartsWith ch "Stash" then DirtyAction.stash else DirtyAction.force)), ev)
  | a => (.ok (.inr a), [])

/-- Dirty-state handling of `archiveWorktree` (index.ts lines 1290-1337):
returns a skip/cancel outcome, or the force flag to use for removal, after
stashing when that was the effective action. -/
def archiveDirtyPlanM (w : World) (branch wtPath : String) (dirtyAction : DirtyAction) :
    Except String (Sum ArchiveOutcome Bool) × List Event :=
  let d := isDirtyM w wtPath
  if ¬d.1 then (.ok (.inr false), d.2)
  else
    let eff := archiveDirtyChoiceM w branch wtPath dirtyAction
    match eff.1 with
    | .error msg => (.error msg, d.2 ++ eff.2)
    | .ok (.inl o) => (.ok (.inl o), d.2 ++ eff.2)
    | .ok (.inr effAction) =>
      match effAction with
      | .skip => (.ok (.inl (skipOutcome branch wtPath "dirty")), d.2 ++ eff.2)
      | .stash =>
        let s := stashAllM w wtPath ("worktree: stash before archiving " ++ branch)
        match s.1 with
        | .error msg => (.error msg, d.2 ++ eff.2 ++ s.2)
        | .ok _ => (.ok (.inr false), d.2 ++ eff.2 ++ s.2)
      | .force => (.ok (.inr true), d.2 ++ eff.2)
      | .prompt => (.ok (.inr false), d.2 ++ eff.2)

/-- Confirmation body for an unpushed branch (index.ts line 1370). -/
def aheadPromptBody (branch upstream : String) (ahead : Int) : String :=
  "Branch " ++ branch ++ " is ahead of " ++ upstream ++ " by " ++ toString ahead ++
  " commit(s). Delete it anyway?"

/-- Confirmation body when ahead/behind is undeterminable (index.ts line 1382). -/
def unknownAheadPromptBody (branch upstream : String) : String :=
  "Branch " ++ branch ++ " has an upstream (" ++ upstream ++
  "), but I couldn\x27t determine if it\x27s fully pushed. Delete it anyway?"

/-- Confirmation body for escalating a refused safe delete to a force
delete, showing the refusal detail (index.ts line 1399). -/
def forceDeletePromptBody (branch details upstream : String) : String :=
  "git branch -d " ++ branch ++ " failed." ++
  (if details ≠ "" then "\n\n" ++ details else "") ++
  "\n\nThis usually means the branch isn\x27t merged into the main worktree\x27s current branch.\n\nThe branch appears fully pushed to " ++
  upstream ++ ". Force delete it with -D?"

/-- Confirmation body for a branch with no upstream (index.ts line 1416). -/
def noUpstreamPromptBody (branch : String) : String :=
  "Branch " ++ branch ++ " has no upstream. Delete it anyway?"

/-- Embedding of `(x || "unknown error").split("\n")[0] || "unknown error"`
(index.ts line 1406). -/
def firstLineOr (s : String) : String :=
  let s2 := if s = "" then "unknown error" else s
  let fl := (((jsSplitChar '\n' s2)).get? 0).getD ""
  if fl = "" then "unknown error" else fl

/-- Branch-deletion phase of `archiveWorktree` (index.ts lines 1348-1430):
entered after the worktree was removed successfully; never throws. -/
def archiveFinishM (w : World) (repo : RepoInfo) (branch defaultMain wtPath : String) :
    ArchiveOutcome × List Event :=
  let up := getUpstreamM w repo.mainRoot branch
  if branch = defaultMain then (removedOutcome branch wtPath false, up.2)
  else
    match up.1 with
    | some upstream =>
      let abq := getAheadBehindM w repo.mainRoot branch upstream
      match abq.1 with
      | some ab =>
        if ab.1 > 0 then
          if w.hasUI then
            let body := aheadPromptBody branch upstream ab.1
            let ans := w.confirm "Delete local branch?" body
            let e3 := [Event.confirmEv "Delete local branch?" body ans]
            if ans then
              let del := gitM w repo.mainRoot ["branch", "-D", branch]
              (removedOutcome branch wtPath (del.1.code = 0), up.2 ++ abq.2 ++ e3 ++ del.2)
            else (removedOutcome branch wtPath false, up.2 ++ abq.2 ++ e3)
          else (removedOutcome branch wtPath false, up.2 ++ abq.2)
        else
          let del := gitM w repo.mainRoot ["branch", "-d", branch]
          if del.1.code = 0 then (removedOutcome branch wtPath true, up.2 ++ abq.2 ++ del.2)
          else if w.hasUI then
            let body := forceDeletePromptBody branch (detailsOf del.1) upstream
            let ans := w.confirm "Force delete local branch?" body
            let e4 := [Event.confirmEv "Force delete local branch?" body ans]
            if ans then
              let fdel := gitM w repo.mainRoot ["branch", "-D", branch]
              if fdel.1.code = 0 then
                (removedOutcome branch wtPath true, up.2 ++ abq.2 ++ del.2 ++ e4 ++ fdel.2)
              else
                (removedOutcome branch wtPath false, up.2 ++ abq.2 ++ del.2 ++ e4 ++ fdel.2 ++
                  [Event.notifyEv ("Failed to delete branch " ++ branch ++ ": " ++
                    firstLineOr (detailsOf fdel.1)) "error"])
            else (removedOutcome branch wtPath false, up.2 ++ abq.2 ++ del.2 ++ e4)
          else (removedOutcome branch wtPath false, up.2 ++ abq.2 ++ del.2)
      | none =>
        if w.hasUI then
          let body := unknownAheadPromptBody branch upstream
          let ans := w.confirm "Delete local branch?" body
          let e3 := [Event.confirmEv "Delete local branch?" body ans]
          if ans then
            let del := gitM w repo.mainRoot ["branch", "-D", branch]
            (removedOutcome branch wtPath (del.1.code = 0), up.2 ++ abq.2 ++ e3 ++ del.2)
          else (removedOutcome branch wtPath false, up.2 ++ abq.2 ++ e3)
        else (removedOutcome branch wtPath false, up.2 ++ abq.2)
    | none =>
      if w.hasUI then
        let body := noUpstreamPromptBody branch
        let ans := w.confirm "Delete local branch?" body
        let e2 := [Event.confirmEv "Delete local branch?" body ans]
        if ans then
          let del := gitM w repo.mainRoot ["branch", "-D", branch]
          (removedOutcome branch wtPath (del.1.code = 0), up.2 ++ e2 ++ del.2)
        else (removedOutcome branch wtPath false, up.2 ++ e2)
      else (removedOutcome branch wtPath false, up.2)

/-- Embedding of `archiveWorktree` (index.ts lines 1243-1431). -/
def archiveWorktreeM (w : World) (repo : RepoInfo) (branch : String)
    (dirtyAction : DirtyAction) (defaultMain : String) (worktree : Option WorktreeInfo) :
    Except String ArchiveOutcome × List Event :=
  let lk := archiveLookupM w repo branch worktree
  match lk.1 with
  | .error msg => (.error msg, lk.2)
  | .ok none => (.ok (skipOutcome branch "" "no-worktree"), lk.2)
  | .ok (some wt) =>
    if wt.path = repo.mainRoot then
      (.ok (skipOutcome branch wt.path "main-worktree"), lk.2)
    else if wt.locked then
      (.ok (skipOutcome branch wt.path (lockedSkipReason wt)), lk.2)
    else if w.sameOrInside w.cwd wt.path then
      (.ok (skipOutcome branch wt.path "current-cwd"), lk.2)
    else
      let plan := archiveDirtyPlanM w branch wt.path dirtyAction
      match plan.1 with
      | .error msg => (.error msg, lk.2 ++ plan.2)
      | .ok (.inl outcome) => (.ok outcome, lk.2 ++ plan.2)
      | .ok (.inr force) =>
        let scr := runProjectScriptsM w wt.path "archive" (w.archiveActionsAt wt.path)
        match scr.1 with
        | .error msg => (.error msg, lk.2 ++ plan.2 ++ scr.2)
        | .ok _ =>
          let removeArgs :=
            if force then ["worktree", "remove", "--force", wt.path]
            else ["worktree", "remove", wt.path]
          let rm := gitM w repo.mainRoot removeArgs
          if rm.1.code ≠ 0 then
            (.error ("Failed to remove worktree " ++ wt.path ++
              (if detailsOf rm.1 ≠ "" then "\n" ++ detailsOf rm.1 else "")),
             lk.2 ++ plan.2 ++ scr.2 ++ rm.2)
          else
            let fin := archiveFinishM w repo branch defaultMain wt.path
            (.ok fin.1, lk.2 ++ plan.2 ++ scr.2 ++ rm.2 ++ fin.2)

/-! ## Trace predicates for the archive claims -/

/-- Is this event a local branch deletion (safe or forced) of `b`? -/
def isBranchDelete (b : String) : Event → Bool
  | .proc p args _ _ => p == "git" && (args == ["branch", "-d", b] || args == ["branch", "-D", b])
  | _ => false

/-- Is this event one of the branch-deletion confirmation prompts? -/
def isDeleteConfirm : Event → Bool
  | .confirmEv title _ _ => title == "Delete local branch?" || title == "Force delete local branch?"
  | _ => false

/-- Is this event a `git worktree remove` invocation? -/
def isWorktreeRemove : Event → Bool
  | .proc p args _ _ => p == "git" && args.take 2 == ["worktree", "remove"]
  | _ => false

/-- No branch-delete command of `b` occurs in the trace. -/
def noDelEvents (b : String) (tr : List Event) : Bool :=
  tr.all (fun e => !isBranchDelete b e)

/-- Neither a branch-delete command of `b` nor a delete-confirmation prompt
occurs in the trace. -/
def delPhaseFree (b : String) (tr : List Event) : Bool :=
  tr.all (fun e => !(isBranchDelete b e || isDeleteConfirm e))

lemma delPhaseFree_append (b : String) (A B : List Event) :
    delPhaseFree b (A ++ B) = (delPhaseFree b A && delPhaseFree b B) := by
  simp [delPhaseFree, List.all_append]

lemma noDelEvents_append (b : String) (A B : List Event) :
    noDelEvents b (A ++ B) = (noDelEvents b A && noDelEvents b B) := by
  simp [noDelEvents, List.all_append]

lemma noDelEvents_of_delPhaseFree {b : String} {tr : List Event}
    (h : delPhaseFree b tr = true) : noDelEvents b tr = true := by
  simp only [delPhaseFree, List.all_eq_true, Bool.not_eq_true', Bool.or_eq_false_iff] at h
  simp only [noDelEvents, List.all_eq_true, Bool.not_eq_true']
  exact fun e he => (h e he).1

lemma cons_beq_cons (a b : String) (t r : List String) :
    ((a :: t) == (b :: r)) = (a == b && t == r) := rfl

lemma beq_branchArgs_false {args : List String} (h : args.head? ≠ some "branch")
    (rest : List String) : (args == ("branch" :: rest)) = false := by
  cases args with
  | nil => rfl
  | cons a t =>
    simp only [List.head?_cons, ne_eq, Option.some.injEq] at h
    rw [cons_beq_cons]
    simp [h]

lemma isBranchDelete_proc_false {b p : String} {args : List String} {cwd : String}
    {code : Int} (h : args.head? ≠ some "branch") :
    isBranchDelete b (.proc p args cwd code) = false := by
  rw [show isBranchDelete b (.proc p args cwd code) =
    (p == "git" && (args == ["branch", "-d", b] || args == ["branch", "-D", b])) from rfl]
  rw [show (["branch", "-d", b] : List String) = "branch" :: ["-d", b] from rfl,
    show (["branch", "-D", b] : List String) = "branch" :: ["-D", b] from rfl,
    beq_branchArgs_false h, beq_branchArgs_false h]
  simp

lemma stringAppend_ne_of_head {p q : String} {a0 c0 : Char} (hp : p.data.head? = some a0)
    (hq : q.data.head? = some c0) (hne : a0 ≠ c0) (s t : String) : ((p ++ s ++ t) == q) = false := by
  rw [beq_eq_false_iff_ne]
  intro h
  have hd : (p ++ s ++ t).data = q.data := congrArg String.data h
  rw [String.data_append, String.data_append] at hd
  cases hp' : p.data with
  | nil => rw [hp'] at hp; simp at hp
  | cons a as =>
    rw [hp'] at hp hd
    simp only [List.head?_cons, Option.some.injEq] at hp
    cases hq' : q.data with
    | nil => rw [hq'] at hq; simp at hq
    | cons c cs =>
      rw [hq'] at hq hd
      simp only [List.head?_cons, Option.some.injEq] at hq
      have : a = c := by
        have := congrArg List.head? hd
        simp only [List.cons_append, List.head?_cons, Option.some.injEq] at this
        exact this
      rw [hp, hq] at this
      exact absurd this hne

lemma runTitle_not_deleteConfirm (phase body : String) (ans : Bool) :
    isDeleteConfirm (.confirmEv ("Run worktree " ++ phase ++ "?") body ans) = false := by
  rw [show isDeleteConfirm (.confirmEv ("Run worktree " ++ phase ++ "?") body ans) =
    (("Run worktree " ++ phase ++ "?") == "Delete local branch?" ||
     ("Run worktree " ++ phase ++ "?") == "Force delete local branch?") from rfl]
  rw [@stringAppend_ne_of_head "Run worktree " "Delete local branch?" 'R' 'D'
      (by decide) (by decide) (by decide) phase "?",
    @stringAppend_ne_of_head "Run worktree " "Force delete local branch?" 'R' 'F'
      (by decide) (by decide) (by decide) phase "?"]
  rfl

@[simp] lemma isBranchDelete_spawned (b p : String) (args : List String) :
    isBranchDelete b (.spawned p args) = false := rfl

@[simp] lemma isBranchDelete_confirmEv (b t bo : String) (a : Bool) :
    isBranchDelete b (.confirmEv t bo a) = false := rfl

@[simp] lemma isBranchDelete_selectEv (b t : String) (o : List String) (a : Option String) :
    isBranchDelete b (.selectEv t o a) = false := rfl

@[simp] lemma isBranchDelete_inputEv (b t d : String) (a : Option String) :
    isBranchDelete b (.inputEv t d a) = false := rfl

@[simp] lemma isBranchDelete_notifyEv (b m l : String) :
    isBranchDelete b (.notifyEv m l) = false := rfl

@[simp] lemma isDeleteConfirm_proc (p : String) (args : List String) (cwd : String) (c : Int) :
    isDeleteConfirm (.proc p args cwd c) = false := rfl

@[simp] lemma isDeleteConfirm_spawned (p : String) (args : List String) :
    isDeleteConfirm (.spawned p args) = false := rfl

@[simp] lemma isDeleteConfirm_selectEv (t : String) (o : List String) (a : Option String) :
    isDeleteConfirm (.selectEv t o a) = false := rfl

@[simp] lemma isDeleteConfirm_inputEv (t d : String) (a : Option String) :
    isDeleteConfirm (.inputEv t d a) = false := rfl

@[simp] lemma isDeleteConfirm_notifyEv (m l : String) :
    isDeleteConfirm (.notifyEv m l) = false := rfl

@[simp] lemma isBranchDelete_bash (b : String) (args : List String) (cwd : String) (c : Int) :
    isBranchDelete b (.proc "bash" args cwd c) = false := rfl

@[simp] lemma isBranchDelete_status (b p : String) (r : List String) (cwd : String) (c : Int) :
    isBranchDelete b (.proc p ("status" :: r) cwd c) = false := by
  apply isBranchDelete_proc_false
  intro h
  simp only [List.head?_cons, Option.some.injEq] at h
  exact absurd h (by decide)

@[simp] lemma isBranchDelete_stash (b p : String) (r : List String) (cwd : String) (c : Int) :
    isBranchDelete b (.proc p ("stash" :: r) cwd c) = false := by
  apply isBranchDelete_proc_false
  intro h
  simp only [List.head?_cons, Option.some.injEq] at h
  exact absurd h (by decide)

@[simp] lemma isBranchDelete_revparse (b p : String) (r : List String) (cwd : String) (c : Int) :
    isBranchDelete b (.proc p ("rev-parse" :: r) cwd c) = false := by
  apply isBranchDelete_proc_false
  intro h
  simp only [List.head?_cons, Option.some.injEq] at h
  exact absurd h (by decide)

@[simp] lemma isBranchDelete_worktreeCmd (b p : String) (r : List String) (cwd : String) (c : Int) :
    isBranchDelete b (.proc p ("worktree" :: r) cwd c) = false := by
  apply isBranchDelete_proc_false
  intro h
  simp only [List.head?_cons, Option.some.injEq] at h
  exact absurd h (by decide)

@[simp] lemma isBranchDelete_forEachRef (b p : String) (r : List String) (cwd : String) (c : Int) :
    isBranchDelete b (.proc p ("for-each-ref" :: r) cwd c) = false := by
  apply isBranchDelete_proc_false
  intro h
  simp only [List.head?_cons, Option.some.injEq] at h
  exact absurd h (by decide)

@[simp] lemma isBranchDelete_revList (b p : String) (r : List String) (cwd : String) (c : Int) :
    isBranchDelete b (.proc p ("rev-list" :: r) cwd c) = false := by
  apply isBranchDelete_proc_false
  intro h
  simp only [List.head?_cons, Option.some.injEq] at h
  exact absurd h (by decide)

@[simp] lemma isBranchDelete_showRef (b p : String) (r : List String) (cwd : String) (c : Int) :
    isBranchDelete b (.proc p ("show-ref" :: r) cwd c) = false := by
  apply isBranchDelete_proc_false
  intro h
  simp only [List.head?_cons, Option.some.injEq] at h
  exact absurd h (by decide)

@[simp] lemma isBranchDelete_symbolicRef (b p : String) (r : List String) (cwd : String) (c : Int) :
    isBranchDelete b (.proc p ("symbolic-ref" :: r) cwd c) = false := by
  apply isBranchDelete_proc_false
  intro h
  simp only [List.head?_cons, Option.some.injEq] at h
  exact absurd h (by decide)

@[simp] lemma isBranchDelete_fetch (b p : String) (r : List String) (cwd : String) (c : Int) :
    isBranchDelete b (.proc p ("fetch" :: r) cwd c) = false := by
  apply isBranchDelete_proc_false
  intro h
  simp only [List.head?_cons, Option.some.injEq] at h
  exact absurd h (by decide)

@[simp] lemma isBranchDelete_remote (b p : String) (r : List String) (cwd : String) (c : Int) :
    isBranchDelete b (.proc p ("remote" :: r) cwd c) = false := by
  apply isBranchDelete_proc_false
  intro h
  simp only [List.head?_cons, Option.some.injEq] at h
  exact absurd h (by decide)

@[simp] lemma isBranchDelete_lsFiles (b p : String) (r : List String) (cwd : String) (c : Int) :
    isBranchDelete b (.proc p ("ls-files" :: r) cwd c) = false := by
  apply isBranchDelete_proc_false
  intro h
  simp only [List.head?_cons, Option.some.injEq] at h
  exact absurd h (by decide)

@[simp] lemma isBranchDelete_checkout (b p : String) (r : List String) (cwd : String) (c : Int) :
    isBranchDelete b (.proc p ("checkout" :: r) cwd c) = false := by
  apply isBranchDelete_proc_false
  intro h
  simp only [List.head?_cons, Option.some.injEq] at h
  exact absurd h (by decide)

@[simp] lemma delPhaseFree_nil (b : String) : delPhaseFree b [] = true := rfl

@[simp] lemma delPhaseFree_cons (b : String) (e : Event) (tr : List Event) :
    delPhaseFree b (e :: tr) =
    (!(isBranchDelete b e || isDeleteConfirm e) && delPhaseFree b tr) := rfl

attribute [simp] delPhaseFree_append

@[simp] lemma runTitle_not_deleteConfirm_simp (phase body : String) (ans : Bool) :
    isDeleteConfirm (.confirmEv ("Run worktree " ++ phase ++ "?") body ans) = false :=
  runTitle_not_deleteConfirm phase body ans

lemma mustGitStdoutM_trace (w : World) (cwd : String) (args : List String) (pfx : String) :
    (mustGitStdoutM w cwd args pfx).2 =
    [Event.proc "git" args cwd ((w.exec "git" args cwd).code)] := by
  simp only [mustGitStdoutM, gitM]
  split <;> rfl

lemma listWorktreesM_trace (w : World) (root : String) :
    (listWorktreesM w root).2 =
    [Event.proc "git" ["worktree", "list", "--porcelain"] root
      ((w.exec "git" ["worktree", "list", "--porcelain"] root).code)] := by
  simp only [listWorktreesM]
  split <;> simp [mustGitStdoutM_trace]

lemma archiveLookupM_delFree (w : World) (repo : RepoInfo) (b br : String)
    (wt : Option WorktreeInfo) : delPhaseFree b (archiveLookupM w repo br wt).2 = true := by
  cases wt with
  | some v => rfl
  | none =>
    simp only [archiveLookupM]
    split <;> simp [listWorktreesM_trace]

lemma isDirtyM_delFree (w : World) (cwd b : String) :
    delPhaseFree b (isDirtyM w cwd).2 = true := by
  have h : (isDirtyM w cwd).2 =
      [Event.proc "git" ["status", "--porcelain"] cwd
        ((w.exec "git" ["status", "--porcelain"] cwd).code)] := rfl
  rw [h]; simp

lemma stashAllM_delFree (w : World) (cwd msg b : String) :
    delPhaseFree b (stashAllM w cwd msg).2 = true := by
  simp only [stashAllM, gitM]
  split
  · simp
  · split <;> simp

lemma archiveDirtyChoiceM_delFree (w : World) (br wtPath b : String) (da : DirtyAction) :
    delPhaseFree b (archiveDirtyChoiceM w br wtPath da).2 = true := by
  cases da with
  | prompt =>
    simp only [archiveDirtyChoiceM]
    split
    · rfl
    · split
      · simp
      · split <;> simp
  | skip => rfl
  | stash => rfl
  | force => rfl

lemma archiveDirtyPlanM_delFree (w : World) (br wtPath b : String) (da : DirtyAction) :
    delPhaseFree b (archiveDirtyPlanM w br wtPath da).2 = true := by
  have hd := isDirtyM_delFree w wtPath b
  have hc := archiveDirtyChoiceM_delFree w br wtPath b da
  have hs : ∀ msg, delPhaseFree b (stashAllM w wtPath msg).2 = true :=
    fun msg => stashAllM_delFree w wtPath msg b
  simp only [archiveDirtyPlanM]
  split
  · exact hd
  · split
    · simp_all
    · simp_all
    · split
      · simp_all
      · split <;> simp_all
      · simp_all
      · simp_all

lemma runChosenScriptM_delFree (w : World) (root phase b : String) (a : SetupAction) :
    delPhaseFree b (runChosenScriptM w root phase a).2 = true := by
  simp only [runChosenScriptM]
  split <;> simp

lemma runProjectScriptsM_delFree (w : World) (root phase b : String)
    (actions : List SetupAction) :
    delPhaseFree b (runProjectScriptsM w root phase actions).2 = true := by
  have hr : ∀ a, delPhaseFree b (runChosenScriptM w root phase a).2 = true :=
    fun a => runChosenScriptM_delFree w root phase b a
  simp only [runProjectScriptsM]
  split
  · rfl
  · split
    · split <;> simp_all
    · split
      · simp
      · split
        · simp
        · split
          · simp
          · split <;> simp_all

lemma archiveDirtyChoiceM_inl (w : World) (br p : String) (da : DirtyAction)
    (o : ArchiveOutcome)
    (h : (archiveDirtyChoiceM w br p da).1 = Except.ok (Sum.inl o)) :
    o = skipOutcome br p "cancelled" := by
  cases da <;> simp only [archiveDirtyChoiceM] at h
  case prompt =>
    split at h
    · simp at h
    · split at h
      · exact (Sum.inl.inj (Except.ok.inj h)).symm
      · split at h
        · exact (Sum.inl.inj (Except.ok.inj h)).symm
        · simp at h
  all_goals simp at h

lemma archiveDirtyPlanM_inl (w : World) (br p : String) (da : DirtyAction)
    (o : ArchiveOutcome)
    (h : (archiveDirtyPlanM w br p da).1 = Except.ok (Sum.inl o)) :
    o.removed = false ∧ o.branchDeleted = false := by
  simp only [archiveDirtyPlanM] at h
  split at h
  · simp at h
  · split at h
    · simp at h
    · next o2 heq =>
      have h2 := archiveDirtyChoiceM_inl w br p da o2 heq
      have : o2 = o := Sum.inl.inj (Except.ok.inj h)
      rw [← this, h2]
      exact ⟨rfl, rfl⟩
    · split at h
      · have : skipOutcome br p "dirty" = o := Sum.inl.inj (Except.ok.inj h)
        rw [← this]
        exact ⟨rfl, rfl⟩
      · split at h
        · simp at h
        · simp at h
      · simp at h
      · simp at h

/-- Structural case split of `archiveWorktreeM`: either it stops before the
branch-deletion phase (no delete command, no delete prompt, and any returned
outcome is an unremoved one), or its trace is a deletion-free prefix followed
by exactly the `archiveFinishM` phase whose outcome it returns. -/
lemma archiveWorktreeM_cases (w : World) (repo : RepoInfo) (b : String)
    (da : DirtyAction) (dm : String) (wt : Option WorktreeInfo) :
    (delPhaseFree b (archiveWorktreeM w repo b da dm wt).2 = true ∧
      ∀ o, (archiveWorktreeM w repo b da dm wt).1 = Except.ok o →
        o.removed = false ∧ o.branchDeleted = false) ∨
    (∃ pre p, delPhaseFree b pre = true ∧
      (archiveWorktreeM w repo b da dm wt).2 = pre ++ (archiveFinishM w repo b dm p).2 ∧
      (archiveWorktreeM w repo b da dm wt).1 = Except.ok (archiveFinishM w repo b dm p).1) := by
  have hlk := archiveLookupM_delFree w repo b b wt
  simp only [archiveWorktreeM]
  split
  · left
    exact ⟨hlk, fun o ho => by cases ho⟩
  · left
    refine ⟨hlk, fun o ho => ?_⟩
    rw [← Except.ok.inj ho]
    exact ⟨rfl, rfl⟩
  · next wtF heq =>
    split
    · left
      refine ⟨hlk, fun o ho => ?_⟩
      rw [← Except.ok.inj ho]
      exact ⟨rfl, rfl⟩
    · split
      · left
        refine ⟨hlk, fun o ho => ?_⟩
        rw [← Except.ok.inj ho]
        exact ⟨rfl, rfl⟩
      · split
        · left
          refine ⟨hlk, fun o ho => ?_⟩
          rw [← Except.ok.inj ho]
          exact ⟨rfl, rfl⟩
        · have hdp := archiveDirtyPlanM_delFree w b wtF.path b da
          split
          · left
            constructor
            · simp [hlk, hdp]
            · intro o ho; cases ho
          · next o1 heq1 =>
            left
            constructor
            · simp [hlk, hdp]
            · intro o ho
              rw [← Except.ok.inj ho]
              exact archiveDirtyPlanM_inl w b wtF.path da o1 heq1
          · next force heqf =>
            have hrs := runProjectScriptsM_delFree w wtF.path "archive" b
              (w.archiveActionsAt wtF.path)
            split
            · left
              constructor
              · simp [hlk, hdp, hrs]
              · intro o ho; cases ho
            · cases force with
              | true =>
                by_cases hc : (w.exec "git" ["worktree", "remove", "--force", wtF.path]
                    repo.mainRoot).code = 0
                · right
                  refine ⟨(archiveLookupM w repo b wt).2 ++
                    (archiveDirtyPlanM w b wtF.path da).2 ++
                    (runProjectScriptsM w wtF.path "archive" (w.archiveActionsAt wtF.path)).2 ++
                    (gitM w repo.mainRoot ["worktree", "remove", "--force", wtF.path]).2,
                    wtF.path, ?_, ?_, ?_⟩
                  · simp [hlk, hdp, hrs, gitM]
                  · simp [hc, gitM]
                  · simp [hc, gitM]
                · left
                  constructor
                  · simp [hc, hlk, hdp, hrs, gitM]
                  · intro o ho
                    simp [hc, gitM] at ho
              | false =>
                by_cases hc : (w.exec "git" ["worktree", "remove", wtF.path]
                    repo.mainRoot).code = 0
                · right
                  refine ⟨(archiveLookupM w repo b wt).2 ++
                    (archiveDirtyPlanM w b wtF.path da).2 ++
                    (runProjectScriptsM w wtF.path "archive" (w.archiveActionsAt wtF.path)).2 ++
                    (gitM w repo.mainRoot ["worktree", "remove", wtF.path]).2,
                    wtF.path, ?_, ?_, ?_⟩
                  · simp [hlk, hdp, hrs, gitM]
                  · simp [hc, gitM]
                  · simp [hc, gitM]
                · left
                  constructor
                  · simp [hc, hlk, hdp, hrs, gitM]
                  · intro o ho
                    simp [hc, gitM] at ho

lemma getUpstreamM_trace (w : World) (root br : String) :
    (getUpstreamM w root br).2 =
    [Event.proc "git" ["for-each-ref", "--format=%(upstream:short)", "refs/heads/" ++ br]
      root ((w.exec "git" ["for-each-ref", "--format=%(upstream:short)", "refs/heads/" ++ br]
        root).code)] := by
  simp only [getUpstreamM, gitM]
  split <;> rfl

/-! ## Claim C1: the default branch is never deleted -/

/-- C1: for every archive invocation whose branch equals the configured
default branch — whatever the dirty policy, the worktree state and the
confirmation answers of the world — the returned ArchiveOutcome has
branchDeleted = false and no branch-delete command is ever issued. -/
theorem archive_default_branch_no_delete (w : World) (repo : RepoInfo)
    (da : DirtyAction) (dm : String) (wt : Option WorktreeInfo) (b : String)
    (h : b = dm) :
    (∀ o, (archiveWorktreeM w repo b da dm wt).1 = Except.ok o →
      o.branchDeleted = false) ∧
    noDelEvents b (archiveWorktreeM w repo b da dm wt).2 = true := by
  rcases archiveWorktreeM_cases w repo b da dm wt with ⟨hfree, hout⟩ | ⟨pre, p, hfree, htr, hres⟩
  · exact ⟨fun o ho => (hout o ho).2, noDelEvents_of_delPhaseFree hfree⟩
  · have hfin : archiveFinishM w repo b dm p =
        (removedOutcome b p false, (getUpstreamM w repo.mainRoot b).2) := by
      simp only [archiveFinishM]
      rw [if_pos h]
    constructor
    · intro o ho
      rw [hres, hfin] at ho
      rw [← Except.ok.inj ho]
      rfl
    · rw [htr, noDelEvents_append]
      have h1 := noDelEvents_of_delPhaseFree hfree
      have h2 : noDelEvents b (archiveFinishM w repo b dm p).2 = true := by
        rw [show (archiveFinishM w repo b dm p).2 = (getUpstreamM w repo.mainRoot b).2
          from congrArg Prod.snd hfin, getUpstreamM_trace]
        simp [noDelEvents]
      simp [h1, h2]

/-- Witness world answering every request with a clean success. -/
def cleanWorld : World :=
  { failWorld with exec := fun _ _ _ => { code := 0, stdout := "", stderr := "", killed := false } }

/-- A linked worktree holding the default branch, for the C1 witness. -/
def wtDefault : WorktreeInfo :=
  { path := "/wt", head := none, branchRef := some "refs/heads/main", detached := false,
    locked := false, lockedReason := none }

/-- Sample topology for the witnesses. -/
def repoA : RepoInfo :=
  { mainRoot := "/main", currentRoot := "/main", projectName := "proj", parentDir := "/parent" }

theorem archive_default_branch_no_delete_witness :
    ((archiveWorktreeM cleanWorld repoA "main" DirtyAction.skip "main" (some wtDefault)).1 =
      Except.ok (removedOutcome "main" "/wt" false)) ∧
    ((∀ o, (archiveWorktreeM cleanWorld repoA "main" DirtyAction.skip "main" (some wtDefault)).1 =
        Except.ok o → o.branchDeleted = false) ∧
      noDelEvents "main" (archiveWorktreeM cleanWorld repoA "main" DirtyAction.skip "main"
        (some wtDefault)).2 = true) :=
  ⟨by rfl,
   archive_default_branch_no_delete cleanWorld repoA DirtyAction.skip "main" (some wtDefault)
     "main" rfl⟩

/-! ## Claim C2: the main worktree is never archived -/

@[simp] lemma isWorktreeRemove_wtList (cwd : String) (c : Int) :
    isWorktreeRemove (.proc "git" ["worktree", "list", "--porcelain"] cwd c) = false := rfl

lemma archiveLookupM_safe (w : World) (repo : RepoInfo) (br : String)
    (wt : Option WorktreeInfo) (b : String) :
    (archiveLookupM w repo br wt).2.all
      (fun e => !(isWorktreeRemove e || isBranchDelete b e)) = true := by
  cases wt with
  | some v => rfl
  | none =>
    simp only [archiveLookupM]
    split <;> simp [listWorktreesM_trace]

/-- C2: whenever the worktree matched by an archive invocation is the main
worktree root, the outcome is removed = false, branchDeleted = false and
skippedReason = "main-worktree", and no worktree-remove or branch-delete
command is issued. -/
theorem archive_main_worktree_skip (w : World) (repo : RepoInfo) (b : String)
    (da : DirtyAction) (dm : String) (wt : Option WorktreeInfo) (wtF : WorktreeInfo)
    (h1 : (archiveLookupM w repo b wt).1 = Except.ok (some wtF))
    (h2 : wtF.path = repo.mainRoot) :
    (archiveWorktreeM w repo b da dm wt).1 =
      Except.ok (skipOutcome b wtF.path "main-worktree") ∧
    (archiveWorktreeM w repo b da dm wt).2.all
      (fun e => !(isWorktreeRemove e || isBranchDelete b e)) = true := by
  have hsafe := archiveLookupM_safe w repo b wt b
  simp only [archiveWorktreeM]
  split
  · next msg heq => rw [h1] at heq; cases heq
  · next heq => rw [h1] at heq; simp at heq
  · next wtF2 heq =>
    rw [h1] at heq
    have hw : wtF = wtF2 := Option.some.inj (Except.ok.inj heq)
    subst hw
    rw [if_pos h2]
    exact ⟨rfl, hsafe⟩

/-- The main worktree record itself, for the C2 witness. -/
def wtMainA : WorktreeInfo :=
  { path := "/main", head := none, branchRef := some "refs/heads/feat", detached := false,
    locked := false, lockedReason := none }

theorem archive_main_worktree_skip_witness :
    (archiveWorktreeM cleanWorld repoA "feat" DirtyAction.prompt "main" (some wtMainA)).1 =
      Except.ok (skipOutcome "feat" wtMainA.path "main-worktree") ∧
    (archiveWorktreeM cleanWorld repoA "feat" DirtyAction.prompt "main" (some wtMainA)).2.all
      (fun e => !(isWorktreeRemove e || isBranchDelete "feat" e)) = true :=
  archive_main_worktree_skip cleanWorld repoA "feat" DirtyAction.prompt "main"
    (some wtMainA) wtMainA rfl rfl

/-! ## Claims C5 and C6: ordering of deletes and confirmations -/

/-- Scanner for C5: a force delete (`branch -D b`) may appear only after a
safe delete (`branch -d b`) that failed and an accepted
"Force delete local branch?" confirmation, in that order. State 0: nothing
seen or the safe delete succeeded; 1: the safe delete failed; 2: the failed
safe delete was followed by an accepted force confirmation. -/
def safeDeleteScan (b : String) : Nat → List Event → Bool
  | _, [] => true
  | st, e :: rest =>
    match e with
    | .proc p args _ code =>
      if p == "git" && args == ["branch", "-d", b] then
        safeDeleteScan b (if code ≠ 0 then 1 else 0) rest
      else if p == "git" && args == ["branch", "-D", b] then
        (st == 2) && safeDeleteScan b st rest
      else safeDeleteScan b st rest
    | .confirmEv title _ ans =>
      if title == "Force delete local branch?" && ans then
        safeDeleteScan b (if st == 1 then 2 else st) rest
      else safeDeleteScan b st rest
    | _ => safeDeleteScan b st rest

/-- Is this event an accepted "Delete local branch?" confirmation? -/
def deleteConfirmAccepted : Event → Bool
  | .confirmEv title _ ans => (title == "Delete local branch?") && ans
  | _ => false

/-- Scanner for C6: a branch-delete command may appear only after an
accepted "Delete local branch?" confirmation. -/
def delAfterConfirm (b : String) : Bool → List Event → Bool
  | _, [] => true
  | seen, e :: rest =>
    if isBranchDelete b e then seen && delAfterConfirm b seen rest
    else delAfterConfirm b (seen || deleteConfirmAccepted e) rest

lemma branchDelete_conds_false {b p : String} {args : List String} {cwd : String} {code : Int}
    (h : isBranchDelete b (.proc p args cwd code) = false) :
    (p == "git" && args == ["branch", "-d", b]) = false ∧
    (p == "git" && args == ["branch", "-D", b]) = false := by
  rw [show isBranchDelete b (.proc p args cwd code) =
    (p == "git" && (args == ["branch", "-d", b] || args == ["branch", "-D", b])) from rfl] at h
  rw [Bool.and_or_distrib_left] at h
  exact ⟨by simp_all, by simp_all⟩

lemma deleteConfirm_conds_false {title body : String} {ans : Bool}
    (h : isDeleteConfirm (.confirmEv title body ans) = false) :
    (title == "Delete local branch?") = false ∧
    (title == "Force delete local branch?") = false := by
  rw [show isDeleteConfirm (.confirmEv title body ans) =
    (title == "Delete local branch?" || title == "Force delete local branch?") from rfl] at h
  exact ⟨by simp_all, by simp_all⟩

lemma safeDeleteScan_skip {b : String} {A : List Event} (hA : delPhaseFree b A = true) :
    ∀ (st : Nat) (B : List Event), safeDeleteScan b st (A ++ B) = safeDeleteScan b st B := by
  induction A with
  | nil => intro st B; rfl
  | cons e A ih =>
    intro st B
    rw [delPhaseFree_cons] at hA
    have he : (isBranchDelete b e || isDeleteConfirm e) = false := by
      rcases Bool.and_eq_true_iff.1 hA with ⟨h1, _⟩
      simpa using h1
    have hA2 : delPhaseFree b A = true := (Bool.and_eq_true_iff.1 hA).2
    have hbd : isBranchDelete b e = false := by simp_all
    have hdc : isDeleteConfirm e = false := by simp_all
    cases e with
    | proc p args cwd code =>
      obtain ⟨c1, c2⟩ := branchDelete_conds_false hbd
      show safeDeleteScan b st ((Event.proc p args cwd code) :: (A ++ B)) = _
      rw [show safeDeleteScan b st ((Event.proc p args cwd code) :: (A ++ B)) =
        (if (p == "git" && args == ["branch", "-d", b]) = true then
          safeDeleteScan b (if code ≠ 0 then 1 else 0) (A ++ B)
        else if (p == "git" && args == ["branch", "-D", b]) = true then
          (st == 2) && safeDeleteScan b st (A ++ B)
        else safeDeleteScan b st (A ++ B)) from rfl]
      rw [c1, c2]
      simp only [Bool.false_eq_true, if_false]
      exact ih hA2 st B
    | confirmEv title body ans =>
      obtain ⟨c1, c2⟩ := deleteConfirm_conds_false hdc
      show safeDeleteScan b st ((Event.confirmEv title body ans) :: (A ++ B)) = _
      rw [show safeDeleteScan b st ((Event.confirmEv title body ans) :: (A ++ B)) =
        (if (title == "Force delete local branch?" && ans) = true then
          safeDeleteScan b (if st == 1 then 2 else st) (A ++ B)
        else safeDeleteScan b st (A ++ B)) from rfl]
      rw [c2]
      simp only [Bool.false_and, Bool.false_eq_true, if_false]
      exact ih hA2 st B
    | spawned p args => exact ih hA2 st B
    | selectEv t o a => exact ih hA2 st B
    | inputEv t d a => exact ih hA2 st B
    | notifyEv m l => exact ih hA2 st B

lemma deleteConfirmAccepted_false {e : Event} (h : isDeleteConfirm e = false) :
    deleteConfirmAccepted e = false := by
  cases e with
  | confirmEv title body ans =>
    obtain ⟨c1, _⟩ := deleteConfirm_conds_false h
    rw [show deleteConfirmAccepted (.confirmEv title body ans) =
      ((title == "Delete local branch?") && ans) from rfl, c1]
    rfl
  | proc p args cwd code => rfl
  | spawned p args => rfl
  | selectEv t o a => rfl
  | inputEv t d a => rfl
  | notifyEv m l => rfl

lemma delAfterConfirm_cons (b : String) (s : Bool) (e : Event) (rest : List Event) :
    delAfterConfirm b s (e :: rest) =
    if isBranchDelete b e then s && delAfterConfirm b s rest
    else delAfterConfirm b (s || deleteConfirmAccepted e) rest := rfl

lemma delAfterConfirm_skip {b : String} {A : List Event} (hA : delPhaseFree b A = true) :
    ∀ (s : Bool) (B : List Event), delAfterConfirm b s (A ++ B) = delAfterConfirm b s B := by
  induction A with
  | nil => intro s B; rfl
  | cons e A ih =>
    intro s B
    rw [delPhaseFree_cons] at hA
    have hA2 : delPhaseFree b A = true := (Bool.and_eq_true_iff.1 hA).2
    have h1 : (isBranchDelete b e || isDeleteConfirm e) = false := by
      rcases Bool.and_eq_true_iff.1 hA with ⟨h1, _⟩
      simpa using h1
    have hbd : isBranchDelete b e = false := by simp_all
    have hdc : isDeleteConfirm e = false := by simp_all
    rw [List.cons_append, delAfterConfirm_cons, hbd]
    simp only [Bool.false_eq_true, if_false, deleteConfirmAccepted_false hdc, Bool.or_false]
    exact ih hA2 s B

lemma getAheadBehindM_trace (w : World) (root br u : String) :
    (getAheadBehindM w root br u).2 =
    [Event.proc "git" ["rev-list", "--left-right", "--count", br ++ "..." ++ u] root
      ((w.exec "git" ["rev-list", "--left-right", "--count", br ++ "..." ++ u] root).code)] := by
  simp only [getAheadBehindM, gitM]
  split
  · rfl
  · split <;> rfl

@[simp] lemma safeDeleteScan_nil (b : String) (st : Nat) :
    safeDeleteScan b st [] = true := rfl

lemma safeDeleteScan_skip_one {b : String} {e : Event}
    (hbd : isBranchDelete b e = false) (hdc : isDeleteConfirm e = false)
    (st : Nat) (rest : List Event) :
    safeDeleteScan b st (e :: rest) = safeDeleteScan b st rest := by
  cases e with
  | proc p args cwd code =>
    obtain ⟨c1, c2⟩ := branchDelete_conds_false hbd
    rw [show safeDeleteScan b st ((Event.proc p args cwd code) :: rest) =
      (if (p == "git" && args == ["branch", "-d", b]) = true then
        safeDeleteScan b (if code ≠ 0 then 1 else 0) rest
      else if (p == "git" && args == ["branch", "-D", b]) = true then
        (st == 2) && safeDeleteScan b st rest
      else safeDeleteScan b st rest) from rfl]
    rw [c1, c2]
    simp
  | confirmEv title body ans =>
    obtain ⟨_, c2⟩ := deleteConfirm_conds_false hdc
    rw [show safeDeleteScan b st ((Event.confirmEv title body ans) :: rest) =
      (if (title == "Force delete local branch?" && ans) = true then
        safeDeleteScan b (if st == 1 then 2 else st) rest
      else safeDeleteScan b st rest) from rfl]
    rw [c2]
    simp
  | spawned p args => rfl
  | selectEv t o a => rfl
  | inputEv t d a => rfl
  | notifyEv m l => rfl

lemma safeDeleteScan_safeDel (b : String) (st : Nat) (root : String) (code : Int)
    (rest : List Event) :
    safeDeleteScan b st (Event.proc "git" ["branch", "-d", b] root code :: rest) =
    safeDeleteScan b (if code ≠ 0 then 1 else 0) rest := by
  rw [show safeDeleteScan b st (Event.proc "git" ["branch", "-d", b] root code :: rest) =
    (if ("git" == "git" && ["branch", "-d", b] == ["branch", "-d", b]) = true then
      safeDeleteScan b (if code ≠ 0 then 1 else 0) rest
    else if ("git" == "git" && ["branch", "-d", b] == ["branch", "-D", b]) = true then
      (st == 2) && safeDeleteScan b st rest
    else safeDeleteScan b st rest) from rfl]
  simp

lemma safeDeleteScan_forceDel (b : String) (st : Nat) (root : String) (code : Int)
    (rest : List Event) :
    safeDeleteScan b st (Event.proc "git" ["branch", "-D", b] root code :: rest) =
    ((st == 2) && safeDeleteScan b st rest) := by
  rw [show safeDeleteScan b st (Event.proc "git" ["branch", "-D", b] root code :: rest) =
    (if ("git" == "git" && ["branch", "-D", b] == ["branch", "-d", b]) = true then
      safeDeleteScan b (if code ≠ 0 then 1 else 0) rest
    else if ("git" == "git" && ["branch", "-D", b] == ["branch", "-D", b]) = true then
      (st == 2) && safeDeleteScan b st rest
    else safeDeleteScan b st rest) from rfl]
  have hne : (("-D" : String) == "-d") = false := by decide
  rw [show ((["branch", "-D", b] : List String) == ["branch", "-d", b]) =
    ("branch" == "branch" && ("-D" == "-d" && (([b] : List String)) == [b])) from rfl, hne]
  simp

lemma safeDeleteScan_forceConfirm (b : String) (st : Nat) (body : String) (ans : Bool)
    (rest : List Event) :
    safeDeleteScan b st (Event.confirmEv "Force delete local branch?" body ans :: rest) =
    (if ans then safeDeleteScan b (if st == 1 then 2 else st) rest
     else safeDeleteScan b st rest) := by
  rw [show safeDeleteScan b st (Event.confirmEv "Force delete local branch?" body ans :: rest) =
    (if ("Force delete local branch?" == "Force delete local branch?" && ans) = true then
      safeDeleteScan b (if st == 1 then 2 else st) rest
    else safeDeleteScan b st rest) from rfl]
  cases ans <;> simp

lemma isBranchDelete_forceDel (b root : String) (code : Int) :
    isBranchDelete b (Event.proc "git" ["branch", "-D", b] root code) = true := by
  rw [show isBranchDelete b (Event.proc "git" ["branch", "-D", b] root code) =
    ("git" == "git" && (["branch", "-D", b] == ["branch", "-d", b] ||
      ["branch", "-D", b] == ["branch", "-D", b])) from rfl]
  simp

lemma deleteConfirmAccepted_deleteTitle (body : String) (ans : Bool) :
    deleteConfirmAccepted (Event.confirmEv "Delete local branch?" body ans) = ans := by
  rw [show deleteConfirmAccepted (Event.confirmEv "Delete local branch?" body ans) =
    ("Delete local branch?" == "Delete local branch?" && ans) from rfl]
  simp

lemma delPhaseFree_no_force_confirm {b : String} {tr : List Event}
    (h : delPhaseFree b tr = true) (body : String) (ans : Bool) :
    Event.confirmEv "Force delete local branch?" body ans ∉ tr := by
  intro hmem
  have := (List.all_eq_true.1 h) _ hmem
  simp only [Bool.not_eq_eq_eq_not, Bool.not_true, Bool.or_eq_false_iff] at this
  have h2 := this.2
  rw [show isDeleteConfirm (Event.confirmEv "Force delete local branch?" body ans) =
    ("Force delete local branch?" == "Delete local branch?" ||
     "Force delete local branch?" == "Force delete local branch?") from rfl] at h2
  simp at h2

/-- Branch-deletion phase under the C5 hypotheses (upstream present, ahead
count 0): the safe delete is issued, unconditionally and first; a force
delete appears only after the failed safe delete and an accepted force
confirmation; and every force confirmation shows the refusal detail. -/
lemma archiveFinishM_ahead0_props (w : World) (repo : RepoInfo) (b dm p u : String)
    (ab : Int × Int) (h0 : ¬b = dm)
    (h1 : (getUpstreamM w repo.mainRoot b).1 = some u)
    (h2 : (getAheadBehindM w repo.mainRoot b u).1 = some ab)
    (h3 : ab.1 = 0) :
    safeDeleteScan b 0 (archiveFinishM w repo b dm p).2 = true ∧
    Event.proc "git" ["branch", "-d", b] repo.mainRoot
      ((w.exec "git" ["branch", "-d", b] repo.mainRoot).code) ∈
      (archiveFinishM w repo b dm p).2 ∧
    (∀ body ans, Event.confirmEv "Force delete local branch?" body ans ∈
        (archiveFinishM w repo b dm p).2 →
      body = forceDeletePromptBody b
        (detailsOf (w.exec "git" ["branch", "-d", b] repo.mainRoot)) u) := by
  have hup := getUpstreamM_trace w repo.mainRoot b
  have hab := getAheadBehindM_trace w repo.mainRoot b u
  simp only [archiveFinishM, if_neg h0, h1, h2, h3, gitM]
  simp only [show ¬((0 : Int) > 0) from by decide, if_false]
  by_cases hdel : (w.exec "git" ["branch", "-d", b] repo.mainRoot).code = 0
  · simp only [hdel, if_true]
    refine ⟨?_, ?_, ?_⟩
    · rw [hup, hab]
      simp only [List.cons_append, List.nil_append]
      rw [safeDeleteScan_skip_one (by simp) (by simp),
        safeDeleteScan_skip_one (by simp) (by simp), safeDeleteScan_safeDel]
      rfl
    · rw [hup, hab]
      simp
    · intro body ans hmem
      rw [hup, hab] at hmem
      simp at hmem
  · simp only [hdel, if_false]
    by_cases hui : w.hasUI
    · simp only [hui, if_true]
      by_cases hans : w.confirm "Force delete local branch?"
        (forceDeletePromptBody b
          (detailsOf (w.exec "git" ["branch", "-d", b] repo.mainRoot)) u)
      · simp only [hans, if_true]
        by_cases hfd : (w.exec "git" ["branch", "-D", b] repo.mainRoot).code = 0
        · simp only [hfd, if_true]
          refine ⟨?_, ?_, ?_⟩
          · rw [hup, hab]
            simp only [List.cons_append, List.nil_append, List.append_assoc]
            rw [safeDeleteScan_skip_one (by simp) (by simp),
              safeDeleteScan_skip_one (by simp) (by simp), safeDeleteScan_safeDel]
            simp only [hdel, ne_eq, not_false_eq_true, if_true]
            rw [safeDeleteScan_forceConfirm]
            simp only [if_true]
            rw [show (if (1 : Nat) == 1 then 2 else 1) = 2 from rfl, safeDeleteScan_forceDel]
            simp
          · rw [hup, hab]
            simp
          · intro body ans hmem
            rw [hup, hab] at hmem
            simp at hmem
            rcases hmem with ⟨hbody, _⟩
            exact hbody
        · simp only [hfd, if_false]
          refine ⟨?_, ?_, ?_⟩
          · rw [hup, hab]
            simp only [List.cons_append, List.nil_append, List.append_assoc]
            rw [safeDeleteScan_skip_one (by simp) (by simp),
              safeDeleteScan_skip_one (by simp) (by simp), safeDeleteScan_safeDel]
            simp only [hdel, ne_eq, not_false_eq_true, if_true]
            rw [safeDeleteScan_forceConfirm]
            simp only [if_true]
            rw [show (if (1 : Nat) == 1 then 2 else 1) = 2 from rfl, safeDeleteScan_forceDel]
            simp only [show ((2 : Nat) == 2) = true from rfl, Bool.true_and]
            rw [safeDeleteScan_skip_one (by simp) (by simp)]
            rfl
          · rw [hup, hab]
            simp
          · intro body ans hmem
            rw [hup, hab] at hmem
            simp at hmem
            rcases hmem with ⟨hbody, _⟩
            exact hbody
      · rw [if_neg hans]
        refine ⟨?_, ?_, ?_⟩
        · rw [hup, hab]
          simp only [List.cons_append, List.nil_append, List.append_assoc]
          rw [safeDeleteScan_skip_one (by simp) (by simp),
            safeDeleteScan_skip_one (by simp) (by simp), safeDeleteScan_safeDel]
          try simp only [List.cons_append, List.nil_append, List.append_nil, List.append_assoc]
          rw [safeDeleteScan_forceConfirm]
          simp [hans]
        · rw [hup, hab]
          simp
        · intro body ans hmem
          rw [hup, hab] at hmem
          simp at hmem
          rcases hmem with ⟨hbody, _⟩
          exact hbody
    · rw [if_neg hui]
      refine ⟨?_, ?_, ?_⟩
      · rw [hup, hab]
        simp only [List.cons_append, List.nil_append]
        rw [safeDeleteScan_skip_one (by simp) (by simp),
          safeDeleteScan_skip_one (by simp) (by simp), safeDeleteScan_safeDel]
        rfl
      · rw [hup, hab]
        simp
      · intro body ans hmem
        rw [hup, hab] at hmem
        simp at hmem

@[simp] lemma delAfterConfirm_nil (b : String) (s : Bool) :
    delAfterConfirm b s [] = true := rfl

lemma delAfterConfirm_skip_one {b : String} {e : Event}
    (hbd : isBranchDelete b e = false) (hdc : isDeleteConfirm e = false)
    (s : Bool) (rest : List Event) :
    delAfterConfirm b s (e :: rest) = delAfterConfirm b s rest := by
  rw [delAfterConfirm_cons, hbd]
  simp only [Bool.false_eq_true, if_false, deleteConfirmAccepted_false hdc, Bool.or_false]

/-- Branch-deletion phase when the branch has no upstream: a delete happens
only after an accepted "Delete local branch?" confirmation, and without an
interactive capability nothing is deleted. -/
lemma archiveFinishM_noUp_props (w : World) (repo : RepoInfo) (b dm p : String)
    (h : (getUpstreamM w repo.mainRoot b).1 = none) :
    delAfterConfirm b false (archiveFinishM w repo b dm p).2 = true ∧
    (w.hasUI = false → noDelEvents b (archiveFinishM w repo b dm p).2 = true ∧
      (archiveFinishM w repo b dm p).1.branchDeleted = false) := by
  have hup := getUpstreamM_trace w repo.mainRoot b
  by_cases hdm : b = dm
  · simp only [archiveFinishM, if_pos hdm]
    constructor
    · rw [hup, delAfterConfirm_skip_one (by simp) (by simp)]
      rfl
    · intro _
      constructor
      · rw [hup]; simp [noDelEvents]
      · rfl
  · simp only [archiveFinishM, if_neg hdm, h, gitM]
    by_cases hui : w.hasUI
    · simp only [hui, if_true]
      by_cases hans : w.confirm "Delete local branch?" (noUpstreamPromptBody b)
      · simp only [hans, if_true]
        constructor
        · rw [hup]
          simp only [List.cons_append, List.nil_append]
          rw [delAfterConfirm_skip_one (by simp) (by simp),
            delAfterConfirm_cons]
          simp only [isBranchDelete_confirmEv, Bool.false_eq_true, if_false,
            deleteConfirmAccepted_deleteTitle, Bool.false_or,
            delAfterConfirm_cons, isBranchDelete_forceDel, if_true, Bool.true_and]
          rfl
        · intro huif
          exact absurd huif (by decide)
      · rw [if_neg hans]
        constructor
        · rw [hup]
          simp only [List.cons_append, List.nil_append, List.append_nil]
          rw [delAfterConfirm_skip_one (by simp) (by simp), delAfterConfirm_cons]
          simp [deleteConfirmAccepted_deleteTitle]
        · intro huif
          exact absurd huif (by decide)
    · rw [if_neg hui]
      constructor
      · rw [hup, delAfterConfirm_skip_one (by simp) (by simp)]
        rfl
      · intro _
        constructor
        · rw [hup]; simp [noDelEvents]
        · rfl

/-- C5: for every archive invocation where the branch is not the default,
has an upstream and the computed ahead count is 0 — for every world, policy
and worktree — the safe delete form is attempted before any force delete: a
completed archive always contains the `branch -d` command, and any
`branch -D` appears only after that safe delete failed and an explicit
"Force delete local branch?" confirmation, carrying the refusal detail in
its body, was accepted. -/
theorem safe_delete_before_force (w : World) (repo : RepoInfo) (b : String)
    (da : DirtyAction) (dm : String) (wt : Option WorktreeInfo) (u : String)
    (ab : Int × Int) (h0 : ¬b = dm)
    (h1 : getUpstreamPure w repo.mainRoot b = some u)
    (h2 : (getAheadBehindM w repo.mainRoot b u).1 = some ab)
    (h3 : ab.1 = 0) :
    safeDeleteScan b 0 (archiveWorktreeM w repo b da dm wt).2 = true ∧
    (∀ o, (archiveWorktreeM w repo b da dm wt).1 = Except.ok o → o.removed = true →
      Event.proc "git" ["branch", "-d", b] repo.mainRoot
        ((w.exec "git" ["branch", "-d", b] repo.mainRoot).code) ∈
        (archiveWorktreeM w repo b da dm wt).2) ∧
    (∀ body ans, Event.confirmEv "Force delete local branch?" body ans ∈
        (archiveWorktreeM w repo b da dm wt).2 →
      body = forceDeletePromptBody b
        (detailsOf (w.exec "git" ["branch", "-d", b] repo.mainRoot)) u) := by
  rcases archiveWorktreeM_cases w repo b da dm wt with ⟨hfree, hout⟩ | ⟨pre, p, hfree, htr, hres⟩
  · refine ⟨?_, ?_, ?_⟩
    · have := safeDeleteScan_skip hfree 0 []
      rw [List.append_nil] at this
      rw [this]
      rfl
    · intro o ho hrem
      rw [(hout o ho).1] at hrem
      cases hrem
    · intro body ans hmem
      exact absurd hmem (delPhaseFree_no_force_confirm hfree body ans)
  · have hfin := archiveFinishM_ahead0_props w repo b dm p u ab h0 h1 h2 h3
    refine ⟨?_, ?_, ?_⟩
    · rw [htr, safeDeleteScan_skip hfree]
      exact hfin.1
    · intro o ho hrem
      rw [htr]
      exact List.mem_append_right pre hfin.2.1
    · intro body ans hmem
      rw [htr] at hmem
      rcases List.mem_append.1 hmem with hpre | hf
      · exact absurd hpre (delPhaseFree_no_force_confirm hfree body ans)
      · exact hfin.2.2 body ans hf

/-- C6: for every archive invocation where the branch has no configured
upstream, a branch-delete command is only ever issued after an accepted
"Delete local branch?" confirmation; in particular, without an interactive
capability the branch is never deleted and the outcome never reports a
deletion. -/
theorem no_upstream_requires_confirmation (w : World) (repo : RepoInfo) (b : String)
    (da : DirtyAction) (dm : String) (wt : Option WorktreeInfo)
    (h : getUpstreamPure w repo.mainRoot b = none) :
    delAfterConfirm b false (archiveWorktreeM w repo b da dm wt).2 = true ∧
    (w.hasUI = false →
      noDelEvents b (archiveWorktreeM w repo b da dm wt).2 = true ∧
      ∀ o, (archiveWorktreeM w repo b da dm wt).1 = Except.ok o →
        o.branchDeleted = false) := by
  rcases archiveWorktreeM_cases w repo b da dm wt with ⟨hfree, hout⟩ | ⟨pre, p, hfree, htr, hres⟩
  · refine ⟨?_, fun _ => ⟨noDelEvents_of_delPhaseFree hfree, fun o ho => (hout o ho).2⟩⟩
    have := delAfterConfirm_skip hfree false []
    rw [List.append_nil] at this
    rw [this]
    rfl
  · have hfin := archiveFinishM_noUp_props w repo b dm p h
    refine ⟨?_, ?_⟩
    · rw [htr, delAfterConfirm_skip hfree]
      exact hfin.1
    · intro huif
      constructor
      · rw [htr, noDelEvents_append, noDelEvents_of_delPhaseFree hfree,
          (hfin.2 huif).1]
        rfl
      · intro o ho
        rw [hres] at ho
        rw [← Except.ok.inj ho]
        exact (hfin.2 huif).2

/-- A linked worktree on a feature branch, for the C5/C6 witnesses. -/
def wtFeat : WorktreeInfo :=
  { path := "/wt", head := none, branchRef := some "refs/heads/feat", detached := false,
    locked := false, lockedReason := none }

/-- Command interpreter for the C5 witness world: the upstream query answers
`origin/feat` and the ahead/behind count is `0` ahead, `2` behind. -/
def upExec : String → List String → String → ExecResult := fun _ args _ =>
  if args.take 1 = ["for-each-ref"] then
    { code := 0, stdout := "origin/feat", stderr := "", killed := false }
  else if args.take 1 = ["rev-list"] then
    { code := 0, stdout := "0\t2", stderr := "", killed := false }
  else { code := 0, stdout := "", stderr := "", killed := false }

/-- Witness world with an upstream that is ahead by zero commits. -/
def upWorld : World := { cleanWorld with exec := upExec }

theorem safe_delete_before_force_witness :
    ((archiveWorktreeM upWorld repoA "feat" DirtyAction.skip "main" (some wtFeat)).1 =
      Except.ok (removedOutcome "feat" "/wt" true)) ∧
    (safeDeleteScan "feat" 0
      (archiveWorktreeM upWorld repoA "feat" DirtyAction.skip "main" (some wtFeat)).2 = true ∧
    (∀ o, (archiveWorktreeM upWorld repoA "feat" DirtyAction.skip "main" (some wtFeat)).1 =
        Except.ok o → o.removed = true →
      Event.proc "git" ["branch", "-d", "feat"] repoA.mainRoot
        ((upWorld.exec "git" ["branch", "-d", "feat"] repoA.mainRoot).code) ∈
        (archiveWorktreeM upWorld repoA "feat" DirtyAction.skip "main" (some wtFeat)).2) ∧
    (∀ body ans, Event.confirmEv "Force delete local branch?" body ans ∈
        (archiveWorktreeM upWorld repoA "feat" DirtyAction.skip "main" (some wtFeat)).2 →
      body = forceDeletePromptBody "feat"
        (detailsOf (upWorld.exec "git" ["branch", "-d", "feat"] repoA.mainRoot)) "origin/feat")) :=
  ⟨by rfl,
   safe_delete_before_force upWorld repoA "feat" DirtyAction.skip "main" (some wtFeat)
     "origin/feat" (0, 2) (by decide) (by rfl) (by rfl) rfl⟩

theorem no_upstream_requires_confirmation_witness :
    delAfterConfirm "feat" false
      (archiveWorktreeM cleanWorld repoA "feat" DirtyAction.skip "main" (some wtFeat)).2 = true ∧
    (cleanWorld.hasUI = false →
      noDelEvents "feat"
        (archiveWorktreeM cleanWorld repoA "feat" DirtyAction.skip "main" (some wtFeat)).2 = true ∧
      ∀ o, (archiveWorktreeM cleanWorld repoA "feat" DirtyAction.skip "main" (some wtFeat)).1 =
          Except.ok o → o.branchDeleted = false) :=
  no_upstream_requires_confirmation cleanWorld repoA "feat" DirtyAction.skip "main"
    (some wtFeat) (by rfl)

/-- The collision message of `resolveWorktreePath` (index.ts lines 510-512). -/
def conflictReason : Option WorktreeInfo → String
  | some ex =>
    "Path is already used by an existing worktree (" ++
      (match ex.branchRef with
       | some r => if r = "" then "detached" else branchNameFromRef r
       | none => "detached") ++ ")"
  | none => "Path already exists and is not empty"

/-- Embedding of the retry loop of `resolveWorktreePath` (index.ts lines
504-523); scripted `ui.input` answers are consumed from `answers`, and an
exhausted script behaves as a cancelled prompt. -/
def resolveLoopM (w : World) (repo : RepoInfo) (wts : List WorktreeInfo) :
    List (Option String) → String → Except String (Option String) × List Event
  | [], cand =>
    if worktreeAtPath w wts cand = none ∧ w.nonEmptyAt cand = false then
      (Except.ok (some cand), [])
    else
      let reason := conflictReason (worktreeAtPath w wts cand)
      if w.hasUI = false then (Except.error (reason ++ ": " ++ cand), [])
      else
        (Except.ok none,
          [Event.notifyEv (reason ++ ": " ++ cand) "warning",
           Event.inputEv "Enter a different worktree directory" cand none])
  | a :: rest, cand =>
    if worktreeAtPath w wts cand = none ∧ w.nonEmptyAt cand = false then
      (Except.ok (some cand), [])
    else
      let reason := conflictReason (worktreeAtPath w wts cand)
      if w.hasUI = false then (Except.error (reason ++ ": " ++ cand), [])
      else
        let pre := [Event.notifyEv (reason ++ ": " ++ cand) "warning",
          Event.inputEv "Enter a different worktree directory" cand a]
        match a with
        | none => (Except.ok none, pre)
        | some s =>
          if s = "" then (Except.ok none, pre)
          else
            let next := if jsStartsWith s "/" then s else w.resolveRel repo.currentRoot s
            let r := resolveLoopM w repo wts rest next
            (r.1, pre ++ r.2)

/-- Embedding of `resolveWorktreePath` (index.ts lines 481-524). -/
def resolveWorktreePathM (w : World) (repo : RepoInfo) (wts : List WorktreeInfo)
    (branch : String) (answers : List (Option String)) :
    Except String (Option String) × List Event :=
  match defaultWorktreePath w repo branch with
  | some cand => resolveLoopM w repo wts answers cand
  | none =>
    if w.hasUI = false then
      (Except.error ("Branch name cannot be normalized to a directory name: " ++ branch), [])
    else
      let suggested := w.joinPath repo.parentDir (repo.projectName ++ "-worktree")
      let note := Event.notifyEv ("Branch name \"" ++ branch ++
        "\" normalizes to an empty directory name. Please choose a worktree directory.") "warning"
      match answers with
      | [] => (Except.ok none, [note, Event.inputEv "Enter worktree directory" suggested none])
      | a :: rest =>
        let pre := [note, Event.inputEv "Enter worktree directory" suggested a]
        match a with
        | none => (Except.ok none, pre)
        | some s =>
          if s = "" then (Except.ok none, pre)
          else
            let cand := if jsStartsWith s "/" then s else w.resolveRel repo.currentRoot s
            let r := resolveLoopM w repo wts rest cand
            (r.1, pre ++ r.2)

/-- A path the retry loop hands back is registered to no worktree and is not
an existing non-empty directory. -/
lemma resolveLoopM_ok_some {w : World} {repo : RepoInfo} {wts : List WorktreeInfo} :
    ∀ (answers : List (Option String)) (cand p : String),
      (resolveLoopM w repo wts answers cand).1 = Except.ok (some p) →
      worktreeAtPath w wts p = none ∧ w.nonEmptyAt p = false := by
  intro answers
  induction answers with
  | nil =>
    intro cand p h
    simp only [resolveLoopM] at h
    split at h
    · next hc =>
      simp only [Except.ok.injEq, Option.some.injEq] at h
      rw [← h]
      exact hc
    · split at h
      · exact absurd h (by simp)
      · exact absurd h (by simp)
  | cons a rest ih =>
    intro cand p h
    simp only [resolveLoopM] at h
    split at h
    · next hc =>
      simp only [Except.ok.injEq, Option.some.injEq] at h
      rw [← h]
      exact hc
    · split at h
      · exact absurd h (by simp)
      · cases a with
        | none => exact absurd h (by simp)
        | some s =>
          simp only at h
          split at h
          · exact absurd h (by simp)
          · exact ih _ p h

/-- C4: whenever `resolveWorktreePath` returns a path (rather than null for
cancellation or an error without UI), that path equals no existing
non-detached worktree record\x27s path and is not an existing non-empty
directory, for every scripted sequence of prompt answers. -/
theorem resolveWorktreePath_no_collision (w : World) (repo : RepoInfo)
    (wts : List WorktreeInfo) (branch : String) (answers : List (Option String)) (p : String)
    (h : (resolveWorktreePathM w repo wts branch answers).1 = Except.ok (some p)) :
    (∀ wt ∈ wts, wt.detached = false → wt.path ≠ p) ∧ w.nonEmptyAt p = false := by
  have key : worktreeAtPath w wts p = none ∧ w.nonEmptyAt p = false := by
    rw [resolveWorktreePathM] at h
    split at h
    · exact resolveLoopM_ok_some _ _ p h
    · split at h
      · exact absurd h (by simp)
      · simp only at h
        split at h
        · exact absurd h (by simp)
        · split at h
          · exact absurd h (by simp)
          · split at h
            · exact absurd h (by simp)
            · exact resolveLoopM_ok_some _ _ p h
  refine ⟨?_, key.2⟩
  intro wt hmem hdet hq
  have key1 := key.1
  simp only [worktreeAtPath] at key1
  have hfind := List.find?_eq_none.1 key1 wt hmem
  simp only [decide_eq_true_eq] at hfind
  exact hfind (by rw [hq])

theorem resolveWorktreePath_no_collision_witness :
    ((resolveWorktreePathM cleanWorld repoA [wtFeat] "feat" []).1 =
      Except.ok (some "/parent/proj-feat")) ∧
    ((∀ wt ∈ [wtFeat], wt.detached = false → wt.path ≠ "/parent/proj-feat") ∧
      cleanWorld.nonEmptyAt "/parent/proj-feat" = false) :=
  ⟨by rfl,
   resolveWorktreePath_no_collision cleanWorld repoA [wtFeat] "feat" []
     "/parent/proj-feat" (by rfl)⟩

/-! ## Include patterns (index.ts lines 653-695, claim C9) -/

/-- Parsed include-pattern record of `parseWorktreeIncludePatterns`. -/
structure IncludePattern where
  glob : String
  negate : Bool
deriving DecidableEq, Repr

/-- Embedding of `replace(/\/$/, "")` (one trailing slash stripped). -/
def stripTrailingSlash (s : String) : String :=
  if jsEndsWith s "/" then s.dropRight 1 else s

/-- Embedding of `parseWorktreeIncludePatterns` (index.ts lines 653-677). -/
def parseWorktreeIncludePatterns (content : String) : List IncludePattern :=
  (((jsSplitChar '\n' content).map jsTrimS).filter
      (fun line => line ≠ "" && !(jsStartsWith line "#"))).map
    (fun pattern =>
      let negate := jsStartsWith pattern "!"
      let raw := if negate then pattern.drop 1 else pattern
      let glob :=
        if jsStartsWith raw "/" then raw.drop 1
        else
          let withoutTrailing := if jsEndsWith raw "/" then raw.dropRight 1 else raw
          if !(jsContainsChar withoutTrailing '/') then "**/" ++ raw else raw
      { glob := glob, negate := negate })

/-- Embedding of `matchesWorktreeInclude` (index.ts lines 679-695); the
abstract matcher `m` stands for `path.matchesGlob`. -/
def matchesWorktreeInclude (m : String → String → Bool) (entry : String)
    (patterns : List IncludePattern) : Bool :=
  let normalizedEntry := stripTrailingSlash entry
  patterns.foldl
    (fun matched p =>
      if m normalizedEntry (stripTrailingSlash p.glob) then !p.negate else matched)
    false

/-- The imperative last-match-wins loop equals the `getLast?` of the
matching patterns. -/
lemma includeFold_eq (m : String → String → Bool) (e : String)
    (pats : List IncludePattern) (acc : Bool) :
    pats.foldl
      (fun matched p =>
        if m e (stripTrailingSlash p.glob) then !p.negate else matched) acc =
    (match (pats.filter (fun p => m e (stripTrailingSlash p.glob))).getLast? with
     | some p => !p.negate
     | none => acc) := by
  induction pats using List.reverseRecOn with
  | nil => rfl
  | append_singleton l p ih =>
    rw [List.foldl_append, List.foldl_cons, List.foldl_nil, ih, List.filter_append]
    by_cases hp : m e (stripTrailingSlash p.glob) = true
    · rw [if_pos hp]
      rw [show List.filter (fun q => m e (stripTrailingSlash q.glob)) [p] = [p] from by
        simp [List.filter_cons, hp]]
      rw [List.getLast?_concat]
    · rw [if_neg hp]
      rw [show List.filter (fun q => m e (stripTrailingSlash q.glob)) [p] = [] from by
        simp [List.filter_cons, hp]]
      rw [List.append_nil]

/-- C9: an ignored entry is selected for copying iff the last pattern of
the parsed include file (blank and comment lines skipped, `!` negating,
leading `/` anchoring, depth-free patterns prefixed with a recursive glob)
that matches it is non-negated, for every abstract glob matcher, entry and
file content. -/
theorem include_last_match_wins (m : String → String → Bool) (entry content : String) :
    matchesWorktreeInclude m entry (parseWorktreeIncludePatterns content) =
      (match ((parseWorktreeIncludePatterns content).filter
          (fun p => m (stripTrailingSlash entry) (stripTrailingSlash p.glob))).getLast? with
       | some p => !p.negate
       | none => false) := by
  simp only [matchesWorktreeInclude]
  exact includeFold_eq m (stripTrailingSlash entry) (parseWorktreeIncludePatterns content) false

example :
    parseWorktreeIncludePatterns "  \n# note\ntarget/\n!/target/keep\nsub/dir\n" =
      [⟨"**/target/", false⟩, ⟨"target/keep", true⟩, ⟨"sub/dir", false⟩] := by decide

example :
    matchesWorktreeInclude (fun e g => e == g) "target" [⟨"**/target/", false⟩] =
      matchesWorktreeInclude (fun e g => e == g) "target/" [⟨"**/target", false⟩] := by decide

/-! ## Clean-sweep classification (index.ts lines 1530-1551, claim C10) -/

/-- Candidate record of the clean sweep (the objects pushed to
`candidates`). -/
structure CleanCandidate where
  branch : String
  worktree : WorktreeInfo
  dirty : Bool
deriving DecidableEq, Repr

/-- The outcome pushed to `locked` for a locked worktree (index.ts lines
1540-1546). -/
def cleanLockedOutcome (branch : String) (wt : WorktreeInfo) : ArchiveOutcome :=
  { branch := branch, worktreePath := wt.path, removed := false, branchDeleted := false,
    skippedReason := some (match wt.lockedReason with
      | some r => if r = "" then "locked" else "locked: " ++ r
      | none => "locked") }

/-- One iteration of the classification loop of `handleClean` (index.ts
lines 1530-1551): the guards in source order, then the locked check, and
finally a dirty-state query for a surviving candidate. -/
def classifyOneM (w : World) (repo : RepoInfo) (wt : WorktreeInfo) :
    Option (CleanCandidate ⊕ ArchiveOutcome) × List Event :=
  if wt.branchRef.getD "" = "" ∨ wt.detached = true then (none, [])
  else if wt.path = repo.mainRoot then (none, [])
  else if w.sameOrInside w.cwd wt.path = true then (none, [])
  else
    let branch := branchNameFromRef (wt.branchRef.getD "")
    let up := getUpstreamM w repo.mainRoot branch
    if up.1 = none then (none, up.2)
    else if wt.locked = true then (some (Sum.inr (cleanLockedOutcome branch wt)), up.2)
    else
      let d := isDirtyM w wt.path
      (some (Sum.inl { branch := branch, worktree := wt, dirty := d.1 }), up.2 ++ d.2)

/-- Accumulation step of the classification loop: a candidate goes to the
first list, a locked outcome to the second. -/
def classifyCons (one : Option (CleanCandidate ⊕ ArchiveOutcome))
    (r : List CleanCandidate × List ArchiveOutcome) :
    List CleanCandidate × List ArchiveOutcome :=
  match one with
  | none => r
  | some (Sum.inl c) => (c :: r.1, r.2)
  | some (Sum.inr o) => (r.1, o :: r.2)

/-- The classification loop of `handleClean` over the listed worktrees. -/
def classifyM (w : World) (repo : RepoInfo) :
    List WorktreeInfo → (List CleanCandidate × List ArchiveOutcome) × List Event
  | [] => (([], []), [])
  | wt :: rest =>
    let one := classifyOneM w repo wt
    let r := classifyM w repo rest
    (classifyCons one.1 r.1, one.2 ++ r.2)

/-- A worktree whose branch has no upstream is classified as nothing at
all, whatever its other flags. -/
lemma classifyOneM_none {w : World} {repo : RepoInfo} {wt : WorktreeInfo}
    (hup : (getUpstreamM w repo.mainRoot
      (branchNameFromRef (wt.branchRef.getD ""))).1 = none) :
    (classifyOneM w repo wt).1 = none := by
  simp only [classifyOneM]
  repeat' split
  all_goals simp_all

/-- C10: in the clean sweep, a locked worktree whose branch has no
configured upstream is dropped before the locked check fires: the
candidate and locked/skipped outcome lists are exactly those computed
without that worktree, so it is archived nowhere and reported nowhere. -/
theorem clean_locked_no_upstream_dropped (w : World) (repo : RepoInfo)
    (wt : WorktreeInfo) (pre post : List WorktreeInfo)
    (_hlock : wt.locked = true)
    (hup : (getUpstreamM w repo.mainRoot
      (branchNameFromRef (wt.branchRef.getD ""))).1 = none) :
    (classifyM w repo (pre ++ wt :: post)).1 = (classifyM w repo (pre ++ post)).1 := by
  induction pre with
  | nil =>
    simp only [List.nil_append, classifyM]
    rw [classifyOneM_none hup]
    rfl
  | cons q rest ih =>
    simp only [List.cons_append, classifyM, List.append_eq]
    rw [ih]

/-- A locked worktree with no upstream, for the C10 witness. -/
def wtLocked2 : WorktreeInfo :=
  { path := "/wt2", head := none, branchRef := some "refs/heads/feat2", detached := false,
    locked := true, lockedReason := some "pinned" }

theorem clean_locked_no_upstream_dropped_witness :
    (wtLocked2.locked = true ∧
      (getUpstreamM cleanWorld repoA.mainRoot
        (branchNameFromRef (wtLocked2.branchRef.getD ""))).1 = none) ∧
    ((classifyM cleanWorld repoA ([wtDefault] ++ wtLocked2 :: [])).1 =
      (classifyM cleanWorld repoA ([wtDefault] ++ [])).1) :=
  ⟨⟨rfl, by rfl⟩,
   clean_locked_no_upstream_dropped cleanWorld repoA wtLocked2 [wtDefault] [] rfl (by rfl)⟩

/-! ## Argument and terminal helpers (index.ts lines 81-135, 957-1062) -/

/-- Embedding of `tokenizeArgs` (index.ts lines 81-85). -/
def tokenizeArgs (args : String) : List String :=
  let trimmed := jsTrimS args
  if trimmed = "" then []
  else (jsSplitPred (fun c => c.isWhitespace) trimmed).filter (fun t => t ≠ "")

/-- Embedding of `stripRefsHeadsPrefix` (index.ts lines 99-101). -/
def stripRefsHeadsPrefix (branch : String) : String :=
  let t := jsTrimS branch
  if jsStartsWith t "refs/heads/" then t.drop "refs/heads/".length else t

/-- Embedding of `shellQuote` (index.ts lines 103-106). -/
def shellQuote (value : String) : String :=
  if value.length = 0 then "\x27\x27"
  else "\x27" ++ jsReplaceAllS value "\x27" "\x27\\\x27\x27" ++ "\x27"

/-- Substring scan for `String.prototype.includes`. -/
def containsSubGo (pat : List Char) : List Char → Bool
  | [] => pat.isEmpty
  | c :: r => ((c :: r).take pat.length == pat) || containsSubGo pat r

/-- Embedding of `String.prototype.includes` for substrings. -/
def jsIncludesSub (s pat : String) : Bool :=
  pat.toList.isEmpty || containsSubGo pat.toList s.toList

/-- Embedding of `getTerminalFlag` (index.ts lines 108-113) over the
world\x27s flag value. -/
def getTerminalFlagM (w : World) : Option String :=
  match w.terminalFlag with
  | none => none
  | some v =>
    let trimmed := jsTrimS v
    if trimmed.length > 0 then some trimmed else none

/-- Embedding of `renderTerminalCommand` (index.ts lines 115-122). -/
def renderTerminalCommand (template cwd : String) : String :=
  let command := jsReplaceAllS template "\x7bcwd\x7d" cwd
  if jsIncludesSub command "\x7bcommand\x7d" then jsReplaceAllS command "\x7bcommand\x7d" "pi"
  else command ++ " pi"

/-- Embedding of `a || b` on strings (first truthy operand). -/
def orElseStr (a b : String) : String := if a ≠ "" then a else b

/-- Program and arguments spawned by `spawnGhosttyFresh` (index.ts lines
978-1008). -/
def spawnGhosttyArgs (w : World) (cwd : String) : String × List String :=
  if w.platformDarwin then
    ("open", ["-n", "-a", "Ghostty"] ++
      (match w.envPATH with | some p => ["--env", "PATH=" ++ p] | none => []) ++
      ["--args", "-e", "bash", "-lc", "cd \"$1\" && exec pi", "--", cwd])
  else
    ("ghostty", ["-e", "bash", "-lc", "cd \"$1\" && exec pi", "--", cwd])

/-- Embedding of `openSessionInDirectory` (index.ts lines 1010-1062). -/
def openSessionInDirectoryM (w : World) (targetPath : String) : Unit × List Event :=
  if ¬w.hasUI then ((), [])
  else
    let manualHint := "cd " ++ shellQuote targetPath ++ " && pi"
    match getTerminalFlagM w with
    | some terminalFlag =>
      let command := renderTerminalCommand terminalFlag targetPath
      ((), [Event.spawned "bash" ["-lc", command],
            Event.notifyEv "Opened new session in custom terminal" "info"])
    | none =>
      if w.envTMUX then
        let targs := ["new-window", "-c", targetPath, "-n", "pi", "pi"]
        let r := w.exec "tmux" targs w.cwd
        if r.code ≠ 0 then
          ((), [Event.proc "tmux" targs w.cwd r.code,
                Event.notifyEv ("tmux failed: " ++ orElseStr r.stderr
                  (orElseStr r.stdout "unknown error")) "warning",
                Event.notifyEv ("Run manually: " ++ manualHint) "info"])
        else
          ((), [Event.proc "tmux" targs w.cwd r.code,
                Event.notifyEv "Opened new session in tmux window" "info"])
      else if w.ghosttyAvail then
        let g := spawnGhosttyArgs w targetPath
        ((), [Event.spawned g.1 g.2,
              Event.notifyEv "Opened new session in Ghostty window" "info"])
      else ((), [Event.notifyEv ("Open a new session: " ++ manualHint) "info"])

/-- Embedding of `message.split("\n")[0] || message` (index.ts line 1220). -/
def firstLineOf (s : String) : String :=
  let fl := ((jsSplitChar '\n' s).get? 0).getD ""
  if fl = "" then s else fl

/-- Embedding of `[xs].join(sep)`. -/
def joinSep (sep : String) : List String → String
  | [] => ""
  | [x] => x
  | x :: r => x ++ sep ++ joinSep sep r

/-! ## maybeSwitchMainToDefaultBranch (index.ts lines 895-955) -/

/-- Embedding of `maybeSwitchMainToDefaultBranch` (index.ts lines 895-955). -/
def maybeSwitchMainToDefaultBranchM (w : World) (repo : RepoInfo)
    (defaultBranch reason : String) (required : Bool) :
    Except String SwitchMainResult × List Event :=
  let cur := getHeadBranchM w repo.mainRoot
  match cur.1 with
  | none => (.ok { proceed := true, switched := false, stashedHash := none }, cur.2)
  | some current =>
    if current = defaultBranch then
      (.ok { proceed := true, switched := false, stashedHash := none }, cur.2)
    else if ¬w.hasUI then
      if required then
        (.error ("Cannot proceed without UI: need to checkout " ++ defaultBranch ++
          " in main worktree to " ++ reason ++ "."), cur.2)
      else (.ok { proceed := true, switched := false, stashedHash := none }, cur.2)
    else
      let title := if required then "Switch main worktree?" else "Switch main worktree branch?"
      let body := "Main worktree is on " ++ current ++ ". Checkout " ++ defaultBranch ++
        " to " ++ reason ++ "?"
      let ok := w.confirm title body
      let e1 := [Event.confirmEv title body ok]
      if ¬ok then
        (.ok { proceed := !required, switched := false, stashedHash := none }, cur.2 ++ e1)
      else
        let d := isDirtyM w repo.mainRoot
        let afterStash : Except String (Sum SwitchMainResult (Option String)) × List Event :=
          if d.1 then
            let stitle := "Main worktree has uncommitted changes"
            let sopts := ["Stash changes (including untracked) and continue", "Cancel"]
            let choice := w.selectAns stitle sopts
            let e2 := [Event.selectEv stitle sopts choice]
            match choice with
            | none =>
              (.ok (Sum.inl { proceed := !required, switched := false, stashedHash := none }), e2)
            | some ch =>
              if jsStartsWith ch "Cancel" then
                (.ok (Sum.inl { proceed := !required, switched := false, stashedHash := none }), e2)
              else
                let st := stashAllM w repo.mainRoot
                  ("worktree: stash before switching main worktree to " ++ defaultBranch)
                match st.1 with
                | .error m => (.error m, e2 ++ st.2)
                | .ok h => (.ok (Sum.inr h), e2 ++ st.2)
          else (.ok (Sum.inr none), [])
        match afterStash.1 with
        | .error m => (.error m, cur.2 ++ e1 ++ d.2 ++ afterStash.2)
        | .ok (Sum.inl res) => (.ok res, cur.2 ++ e1 ++ d.2 ++ afterStash.2)
        | .ok (Sum.inr stashedHash) =>
          let co := gitM w repo.mainRoot ["checkout", defaultBranch]
          if co.1.code ≠ 0 then
            (.error ("Failed to checkout " ++ defaultBranch ++ " in main worktree" ++
              (if detailsOf co.1 ≠ "" then "\n" ++ detailsOf co.1 else "")),
             cur.2 ++ e1 ++ d.2 ++ afterStash.2 ++ co.2)
          else
            (.ok { proceed := true, switched := true, stashedHash := stashedHash },
             cur.2 ++ e1 ++ d.2 ++ afterStash.2 ++ co.2)

/-! ## applyWorktreeInclude (index.ts lines 733-835) -/

/-- Embedding of `applyWorktreeInclude` (index.ts lines 733-835); the copy
loop\x27s per-entry filesystem work surfaces only as failure notifications,
driven by the world\x27s `copyEntryErr` oracle. -/
def applyWorktreeIncludeM (w : World) (sourceRoot destRoot : String)
    (worktrees : List WorktreeInfo) : Unit × List Event :=
  if ¬w.hasUI then ((), [])
  else
    let includeFile := w.joinPath sourceRoot ".worktreeinclude"
    if ¬w.isFileAt includeFile then ((), [])
    else
      match w.readFileAt includeFile with
      | none => ((), [])
      | some content =>
        let patterns := parseWorktreeIncludePatterns content
        if patterns.length = 0 then ((), [])
        else
          let ls := gitM w sourceRoot ["ls-files", "--ignored", "--exclude-standard", "-o",
            "--directory", "--no-empty-directory"]
          if ls.1.code ≠ 0 then ((), ls.2)
          else
            let ignoredEntries :=
              ((jsSplitChar '\n' ls.1.stdout).map jsTrimS).filter (fun l => l ≠ "")
            let entries1 := ignoredEntries.filter
              (fun entry => matchesWorktreeInclude w.matchGlob entry patterns)
            let worktreePaths := worktrees.map (fun wt => w.realp wt.path)
            let sourceRealpath := w.realp sourceRoot
            let entriesToCopy := entries1.filter (fun entry =>
              let entryAbs := w.realp (w.joinPath sourceRoot (stripTrailingSlash entry))
              !(worktreePaths.any (fun wtPath =>
                wtPath ≠ sourceRealpath && w.sameOrInside wtPath entryAbs)))
            if entriesToCopy.length = 0 then ((), ls.2)
            else
              let listing := joinLines (entriesToCopy.map (fun e => "  " ++ e))
              let body := "Found .worktreeinclude. Copy these gitignored entries:\n\n" ++ listing
              let ok := w.confirm "Copy cached files from main worktree?" body
              let ev := [Event.confirmEv "Copy cached files from main worktree?" body ok]
              if ¬ok then ((), ls.2 ++ ev)
              else
                let copyEvs := entriesToCopy.foldr (fun entry acc =>
                  (let src := w.joinPath sourceRoot (stripTrailingSlash entry)
                   let dst := w.joinPath destRoot (stripTrailingSlash entry)
                   if ¬(w.sameOrInside src sourceRoot) ∨ ¬(w.sameOrInside dst destRoot) then []
                   else if ¬w.existsAt src then []
                   else
                     match w.copyEntryErr src with
                     | some msg =>
                       [Event.notifyEv ("Failed to copy " ++ entry ++ ": " ++ msg) "warning"]
                     | none => []) ++ acc) []
                ((), ls.2 ++ ev ++ copyEvs ++ [Event.notifyEv "Cached files copied" "info"])

/-! ## handleNew (index.ts lines 1064-1241) -/

/-- The `--from` scan of `handleNew` (index.ts lines 1082-1094): the last
occurrence wins, `--from` consumes the following token. -/
def fromRefLoop : Option String → List String → Option String
  | acc, [] => acc
  | acc, t :: rest =>
    if t = "--from" then
      match rest with
      | [] => fromRefLoop none []
      | v :: rest2 => fromRefLoop (some v) rest2
    else if jsStartsWith t "--from=" then
      fromRefLoop (some (t.drop "--from=".length)) rest
    else fromRefLoop acc rest

/-- `fromRef` as parsed from the tokens after the branch name. -/
def parseFromRef (tokens : List String) : Option String :=
  fromRefLoop none (tokens.drop 1)

/-- Creation path of `handleNew` (index.ts lines 1125-1239), entered once
the branch is not already checked out elsewhere: path resolution, the
main-worktree switch, branch creation, the worktree add, stash re-apply,
cached-file copying, setup scripts and session opening. -/
def handleNewCreateM (w : World) (repo : RepoInfo) (defaultMain branch : String)
    (fromRef : Option String) (existing : Option WorktreeInfo)
    (worktrees : List WorktreeInfo) (inputs : List (Option String)) :
    Except String Unit × List Event :=
  let rp := resolveWorktreePathM w repo worktrees branch inputs
  match rp.1 with
  | .error m => (.error m, rp.2)
  | .ok none =>
    (.ok (), rp.2 ++ (if w.hasUI then [Event.notifyEv "Cancelled" "warning"] else []))
  | .ok (some targetPath) =>
    let swq : Except String (Sum Unit (Bool × Option String)) × List Event :=
      match existing with
      | some e =>
        if e.path = repo.mainRoot then
          let r := maybeSwitchMainToDefaultBranchM w repo defaultMain
            ("free branch " ++ branch) true
          match r.1 with
          | .error m => (.error m, r.2)
          | .ok res =>
            if ¬res.proceed then
              (.ok (Sum.inl ()),
               r.2 ++ (if w.hasUI then [Event.notifyEv "Cancelled" "warning"] else []))
            else
              (.ok (Sum.inr (res.switched, res.stashedHash)),
               r.2 ++ (if res.switched && w.hasUI then
                 [Event.notifyEv ("Switched main worktree (" ++ repo.mainRoot ++ ") from " ++
                   branch ++ " to " ++ defaultMain ++
                   " to free the branch. The new worktree will be on " ++ branch ++ ".") "info"]
                 else []))
        else (.ok (Sum.inr (false, none)), [])
      | none => (.ok (Sum.inr (false, none)), [])
    match swq.1 with
    | .error m => (.error m, rp.2 ++ swq.2)
    | .ok (Sum.inl _) => (.ok (), rp.2 ++ swq.2)
    | .ok (Sum.inr sw) =>
      let exq := localBranchExistsM w repo.mainRoot branch
      let conf : Except String (Option Unit) × List Event :=
        if exq.1 then
          match fromRef with
          | some fr =>
            if w.hasUI then
              let btitle := "Branch exists"
              let bbody := "Branch " ++ branch ++
                " already exists.\n\nContinuing will use the existing branch at its current state; --from (" ++
                fr ++ ") will have no effect.\n\nContinue?"
              let ok := w.confirm btitle bbody
              let ev := [Event.confirmEv btitle bbody ok]
              if ok then (.ok (some ()), ev)
              else (.ok none, ev ++ [Event.notifyEv "Cancelled" "warning"])
            else (.ok (some ()), [])
          | none => (.ok (some ()), [])
        else (.ok (some ()), [])
      match conf.1 with
      | .error m => (.error m, rp.2 ++ swq.2 ++ exq.2 ++ conf.2)
      | .ok none => (.ok (), rp.2 ++ swq.2 ++ exq.2 ++ conf.2)
      | .ok (some _) =>
        let addq : Except String (List String) × List Event :=
          if exq.1 then (.ok ["worktree", "add", targetPath, branch], [])
          else
            let bq := mustGitStdoutM w repo.currentRoot ["rev-parse", fromRef.getD "HEAD"]
              ("Failed to resolve base ref: " ++ fromRef.getD "HEAD")
            match bq.1 with
            | .error m => (.error m, bq.2)
            | .ok out => (.ok ["worktree", "add", "-b", branch, targetPath, jsTrimS out], bq.2)
        match addq.1 with
        | .error m => (.error m, rp.2 ++ swq.2 ++ exq.2 ++ conf.2 ++ addq.2)
        | .ok addArgs =>
          let add := gitM w repo.mainRoot addArgs
          if add.1.code ≠ 0 then
            (.error ("Failed to create worktree" ++
              (if detailsOf add.1 ≠ "" then "\n" ++ detailsOf add.1 else "")),
             rp.2 ++ swq.2 ++ exq.2 ++ conf.2 ++ addq.2 ++ add.2)
          else
            let n1 := if w.hasUI then
              [Event.notifyEv ("Worktree created: " ++ targetPath) "info"] else []
            let n2 := if sw.1 && w.hasUI then
              [Event.notifyEv ("Main worktree is now on " ++ defaultMain ++ ". Worktree " ++
                targetPath ++ " is on " ++ branch ++ ".") "info"] else []
            let stq : Unit × List Event :=
              match sw.2 with
              | some h =>
                if w.hasUI then
                  let atitle := "Apply stashed changes?"
                  let abody := "I stashed changes in the main worktree to switch branches. Applying may cause conflicts. Apply them to the new worktree?"
                  let aok := w.confirm atitle abody
                  let aev := [Event.confirmEv atitle abody aok]
                  if aok then
                    let ap := applyStashToWorktreeM w repo.mainRoot targetPath h
                    match ap.1 with
                    | .ok _ =>
                      ((), aev ++ ap.2 ++
                        [Event.notifyEv "Applied stashed changes to the new worktree" "info"])
                    | .error msg =>
                      ((), aev ++ ap.2 ++
                        [Event.notifyEv ("Failed to apply stash: " ++ firstLineOf msg) "error",
                         Event.notifyEv ("The stash was kept. You can re-apply it manually in " ++
                           targetPath ++ ": git stash apply " ++ h) "warning"])
                  else
                    ((), aev ++ [Event.notifyEv "Changes remain stashed (git stash list)" "warning"])
                else ((), [])
              | none => ((), [])
            let ls2 := listWorktreesM w repo.mainRoot
            match ls2.1 with
            | .error m =>
              (.error m,
               rp.2 ++ swq.2 ++ exq.2 ++ conf.2 ++ addq.2 ++ add.2 ++ n1 ++ n2 ++ stq.2 ++ ls2.2)
            | .ok currentWorktrees =>
              let inc := applyWorktreeIncludeM w repo.mainRoot targetPath currentWorktrees
              let scr := runProjectScriptsM w targetPath "setup" (w.setupActionsAt targetPath)
              match scr.1 with
              | .error m =>
                (.error m, rp.2 ++ swq.2 ++ exq.2 ++ conf.2 ++ addq.2 ++ add.2 ++ n1 ++ n2 ++
                  stq.2 ++ ls2.2 ++ inc.2 ++ scr.2)
              | .ok _ =>
                let op := openSessionInDirectoryM w targetPath
                (.ok (), rp.2 ++ swq.2 ++ exq.2 ++ conf.2 ++ addq.2 ++ add.2 ++ n1 ++ n2 ++
                  stq.2 ++ ls2.2 ++ inc.2 ++ scr.2 ++ op.2)

/-- Registry-reading body of `handleNew` (index.ts lines 1103-1239),
entered right after the prune. -/
def handleNewAfterPruneM (w : World) (repo : RepoInfo) (defaultMain branch : String)
    (fromRef : Option String) (inputs : List (Option String)) :
    Except String Unit × List Event :=
  let lsq := listWorktreesM w repo.mainRoot
  match lsq.1 with
  | .error m => (.error m, lsq.2)
  | .ok worktrees =>
    let existing := worktrees.find? (fun x => x.branchRef == some ("refs/heads/" ++ branch))
    match existing with
    | some ex =>
      if ex.path ≠ repo.mainRoot then
        let op := openSessionInDirectoryM w ex.path
        (.ok (), lsq.2 ++
          (if w.hasUI then
            [Event.notifyEv ("Branch " ++ branch ++ " is already checked out at: " ++ ex.path)
              "info"] else []) ++ op.2)
      else if branch = defaultMain then
        (.ok (), lsq.2 ++
          (if w.hasUI then
            [Event.notifyEv ("Branch " ++ branch ++ " is already checked out in the main worktree (" ++
              repo.mainRoot ++ "); can\x27t create another worktree for it.") "warning"] else []))
      else
        let c := handleNewCreateM w repo defaultMain branch fromRef existing worktrees inputs
        (c.1, lsq.2 ++ c.2)
    | none =>
      let c := handleNewCreateM w repo defaultMain branch fromRef existing worktrees inputs
      (c.1, lsq.2 ++ c.2)

/-- `handleNew` once a candidate branch name is in hand (index.ts lines
1074-1241): validation, repository discovery, the prune, then the body. -/
def handleNewNamedM (w : World) (branch1 : String) (tokens : List String)
    (inputs : List (Option String)) (pre : List Event) :
    Except String Unit × List Event :=
  let branch := stripRefsHeadsPrefix branch1
  if branch = "" ∨ jsStartsWith branch "-" then
    (.ok (), pre ++ (if w.hasUI then [Event.notifyEv "Invalid branch name" "warning"] else []))
  else
    let fromRef := parseFromRef tokens
    let repoq := getRepoInfoM w w.cwd
    match repoq.1 with
    | .error m => (.error m, pre ++ repoq.2)
    | .ok repo =>
      let dmq := getDefaultMainBranchM w repo.mainRoot
      let pr := pruneWorktreesM w repo.mainRoot
      let body := handleNewAfterPruneM w repo dmq.1 branch fromRef inputs
      (body.1, pre ++ repoq.2 ++ dmq.2 ++ pr.2 ++ body.2)

/-- Embedding of `handleNew` (index.ts lines 1064-1241); scripted `ui.input`
answers are consumed from `inputs`. -/
def handleNewM (w : World) (args : String) (inputs : List (Option String)) :
    Except String Unit × List Event :=
  let tokens := tokenizeArgs args
  let branch0 := (tokens.get? 0).getD ""
  if branch0 = "" ∨ jsStartsWith branch0 "-" then
    if ¬w.hasUI then (.ok (), [])
    else
      let a := (inputs.head?).getD none
      let ev := [Event.inputEv "Branch name" "" a]
      match a with
      | none => (.ok (), ev)
      | some i =>
        if i = "" then (.ok (), ev)
        else handleNewNamedM w (jsTrimS i) tokens (inputs.drop 1) ev
  else handleNewNamedM w branch0 tokens inputs []

/-! ## handleArchive (index.ts lines 1433-1496) -/

/-- Post-prune body of `handleArchive` (index.ts lines 1456-1494). -/
def handleArchiveAfterPruneM (w : World) (repo : RepoInfo) (defaultMain branch : String) :
    Except String Unit × List Event :=
  let aq := archiveWorktreeM w repo branch DirtyAction.prompt defaultMain none
  match aq.1 with
  | .error m => (.error m, aq.2)
  | .ok outcome =>
    if ¬w.hasUI then (.ok (), aq.2)
    else if outcome.removed then
      (.ok (), aq.2 ++ [Event.notifyEv ("Archived " ++ branch ++ " (" ++
        (if outcome.branchDeleted then "branch deleted" else "branch kept") ++ ")") "info"])
    else if outcome.skippedReason = some "cancelled" then
      (.ok (), aq.2 ++ [Event.notifyEv "Cancelled" "warning"])
    else if outcome.skippedReason = some "no-worktree" then
      (.ok (), aq.2 ++ [Event.notifyEv ("No worktree found for branch: " ++ branch) "warning"])
    else if outcome.skippedReason = some "main-worktree" then
      (.ok (), aq.2 ++ [Event.notifyEv ("Branch " ++ branch ++
        " is checked out in the main worktree; can\x27t archive it. Use /worktree new " ++
        branch ++ " first.") "warning"])
    else if outcome.skippedReason = some "current-cwd" then
      (.ok (), aq.2 ++ [Event.notifyEv
        ("Can\x27t archive the worktree you\x27re currently in. cd elsewhere and retry: " ++
          outcome.worktreePath) "warning"])
    else
      (.ok (), aq.2 ++ [Event.notifyEv ("Skipped " ++ branch ++ " (" ++
        outcome.skippedReason.getD "unknown" ++ ")") "warning"])

/-- `handleArchive` once a candidate branch name is in hand (index.ts lines
1443-1495). -/
def handleArchiveNamedM (w : World) (branch1 : String) (pre : List Event) :
    Except String Unit × List Event :=
  let branch := stripRefsHeadsPrefix branch1
  if branch = "" ∨ jsStartsWith branch "-" then
    (.ok (), pre ++ (if w.hasUI then [Event.notifyEv "Invalid branch name" "warning"] else []))
  else
    let repoq := getRepoInfoM w w.cwd
    match repoq.1 with
    | .error m => (.error m, pre ++ repoq.2)
    | .ok repo =>
      let dmq := getDefaultMainBranchM w repo.mainRoot
      let pr := pruneWorktreesM w repo.mainRoot
      let body := handleArchiveAfterPruneM w repo dmq.1 branch
      (body.1, pre ++ repoq.2 ++ dmq.2 ++ pr.2 ++ body.2)

/-- Embedding of `handleArchive` (index.ts lines 1433-1496). -/
def handleArchiveM (w : World) (args : String) (inputs : List (Option String)) :
    Except String Unit × List Event :=
  let tokens := tokenizeArgs args
  let branch0 := (tokens.get? 0).getD ""
  if branch0 = "" ∨ jsStartsWith branch0 "-" then
    if ¬w.hasUI then (.ok (), [])
    else
      let a := (inputs.head?).getD none
      let ev := [Event.inputEv "Branch name" "" a]
      match a with
      | none => (.ok (), ev)
      | some i =>
        if i = "" then (.ok (), ev)
        else handleArchiveNamedM w (jsTrimS i) ev
  else handleArchiveNamedM w branch0 []

/-! ## handleClean (index.ts lines 1498-1614) -/

/-- The archive loop of `handleClean` (index.ts lines 1599-1603), splitting
outcomes into archived and skipped in iteration order. -/
def cleanArchiveLoopM (w : World) (repo : RepoInfo) (defaultMain : String)
    (da : DirtyAction) :
    List CleanCandidate → Except String (List ArchiveOutcome × List ArchiveOutcome) × List Event
  | [] => (.ok ([], []), [])
  | c :: rest =>
    let aq := archiveWorktreeM w repo c.branch da defaultMain (some c.worktree)
    match aq.1 with
    | .error m => (.error m, aq.2)
    | .ok outcome =>
      let r := cleanArchiveLoopM w repo defaultMain da rest
      match r.1 with
      | .error m => (.error m, aq.2 ++ r.2)
      | .ok res =>
        (.ok (if outcome.removed then (outcome :: res.1, res.2)
              else (res.1, outcome :: res.2)), aq.2 ++ r.2)

/-- One `branch (reason)` display element of the skipped/locked lists
(index.ts lines 1559 and 1608). -/
def outcomeListEntry (o : ArchiveOutcome) : String :=
  o.branch ++ " (" ++ o.skippedReason.getD "unknown" ++ ")"

/-- Post-prune body of `handleClean` (index.ts lines 1525-1612):
classification, the dirty-action prompt, the archive loop, the summary. -/
def handleCleanAfterPruneM (w : World) (repo : RepoInfo) (defaultMain : String) :
    Except String Unit × List Event :=
  let lsq := listWorktreesM w repo.mainRoot
  match lsq.1 with
  | .error m => (.error m, lsq.2)
  | .ok worktrees =>
    let cl := classifyM w repo worktrees
    let candidates := cl.1.1
    let locked := cl.1.2
    if candidates.length = 0 then
      if locked.length = 0 then
        (.ok (), lsq.2 ++ cl.2 ++ [Event.notifyEv "No pushed worktrees to archive" "info"])
      else
        (.ok (), lsq.2 ++ cl.2 ++ [Event.notifyEv ("No removable pushed worktrees. Locked: " ++
          joinSep ", " (locked.map outcomeListEntry)) "warning"])
    else
      let dirtyCount := (candidates.filter (fun c => c.dirty)).length
      let daq : Except String (Option DirtyAction) × List Event :=
        if dirtyCount > 0 then
          let title := "Found " ++ toString candidates.length ++ " pushed worktree(s): " ++
            toString (candidates.length - dirtyCount) ++ " clean, " ++
            toString dirtyCount ++ " dirty"
          let options := ["Archive clean only (skip dirty)",
            "Stash dirty (including untracked) and archive all",
            "Force remove dirty and archive all (lose changes)", "Cancel"]
          let choice := w.selectAns title options
          let ev := [Event.selectEv title options choice]
          match choice with
          | none => (.ok none, ev ++ [Event.notifyEv "Cancelled" "warning"])
          | some ch =>
            if ch = "Cancel" then (.ok none, ev ++ [Event.notifyEv "Cancelled" "warning"])
            else
              (.ok (some (if jsStartsWith ch "Stash" then DirtyAction.stash
                else if jsStartsWith ch "Force" then DirtyAction.force
                else DirtyAction.skip)), ev)
        else
          let t := "Archive pushed worktrees?"
          let b := "Archive " ++ toString candidates.length ++ " pushed worktree(s)?"
          let ok := w.confirm t b
          let ev := [Event.confirmEv t b ok]
          if ok then (.ok (some DirtyAction.stash), ev)
          else (.ok none, ev ++ [Event.notifyEv "Cancelled" "warning"])
      match daq.1 with
      | .error m => (.error m, lsq.2 ++ cl.2 ++ daq.2)
      | .ok none => (.ok (), lsq.2 ++ cl.2 ++ daq.2)
      | .ok (some dirtyAction) =>
        let loop := cleanArchiveLoopM w repo defaultMain dirtyAction candidates
        match loop.1 with
        | .error m => (.error m, lsq.2 ++ cl.2 ++ daq.2 ++ loop.2)
        | .ok res =>
          let archived := res.1
          let skipped := locked ++ res.2
          let n := if w.hasUI then
            [Event.notifyEv (joinSep ". "
              (["Archived " ++ toString archived.length ++ " worktree(s)"] ++
               (if skipped.length > 0 then
                 ["Skipped " ++ toString skipped.length ++ ": " ++
                   joinSep ", " (skipped.map outcomeListEntry)] else [])))
              (if archived.length > 0 then "info" else "warning")] else []
          (.ok (), lsq.2 ++ cl.2 ++ daq.2 ++ loop.2 ++ n)

/-- Embedding of `handleClean` (index.ts lines 1498-1614). -/
def handleCleanM (w : World) : Except String Unit × List Event :=
  if ¬w.hasUI then (.ok (), [])
  else
    let repoq := getRepoInfoM w w.cwd
    match repoq.1 with
    | .error m => (.error m, repoq.2)
    | .ok repo =>
      let dmq := getDefaultMainBranchM w repo.mainRoot
      let remotes := gitM w repo.mainRoot ["remote"]
      let fq : Except String Unit × List Event :=
        if remotes.1.code = 0 ∧ (jsTrimS remotes.1.stdout).length > 0 then
          let fetch := gitM w repo.mainRoot ["fetch", "--all", "--prune"]
          if fetch.1.killed || fetch.1.code ≠ 0 then
            (.error ("git fetch failed" ++
              (if fetch.1.killed then " (timed out after 60s)" else "") ++
              (if detailsOf fetch.1 ≠ "" then "\n" ++ detailsOf fetch.1 else "")), fetch.2)
          else (.ok (), fetch.2)
        else (.ok (), [])
      match fq.1 with
      | .error m => (.error m, repoq.2 ++ dmq.2 ++ remotes.2 ++ fq.2)
      | .ok _ =>
        let pr := pruneWorktreesM w repo.mainRoot
        let body := handleCleanAfterPruneM w repo dmq.1
        (body.1, repoq.2 ++ dmq.2 ++ remotes.2 ++ fq.2 ++ pr.2 ++ body.2)

/-! ## handleList (index.ts lines 1616-1793) -/

/-- Display record of the list view (interface WorktreeDisplayItem). -/
structure WorktreeDisplayItem where
  wt : WorktreeInfo
  branch : String
  isCurrent : Bool
  isMain : Bool
  status : DirtyState
  pathState : WorktreePathState
  tracked : Bool
deriving DecidableEq, Repr

/-- Embedding of the detached label (index.ts line 1646). -/
def detachedLabel (wt : WorktreeInfo) : String :=
  match wt.head with
  | some h => if h ≠ "" then "detached@" ++ h.take 7 else "detached"
  | none => "detached"

/-- One iteration of `gatherWorktreeDisplayItems` (index.ts lines 1635-1653). -/
def gatherOneM (w : World) (repo : RepoInfo) (wt : WorktreeInfo) :
    WorktreeDisplayItem × List Event :=
  let currentReal := w.realp repo.currentRoot
  let mainReal := w.realp repo.mainRoot
  let wtReal := w.realp wt.path
  let bt : (String × Bool) × List Event :=
    match wt.branchRef with
    | some r =>
      if r ≠ "" then
        let b := branchNameFromRef r
        let up := getUpstreamM w repo.mainRoot b
        ((b, up.1 ≠ none), up.2)
      else if wt.detached then ((detachedLabel wt, false), [])
      else (("unknown", false), [])
    | none =>
      if wt.detached then ((detachedLabel wt, false), [])
      else (("unknown", false), [])
  let pathState := w.pathStateAt wt.path
  let sq : DirtyState × List Event :=
    if pathState = WorktreePathState.ok then getDirtyStateM w wt.path
    else (DirtyState.unknown, [])
  ({ wt := wt, branch := bt.1.1, isCurrent := wtReal == currentReal,
     isMain := wtReal == mainReal, status := sq.1, pathState := pathState,
     tracked := bt.1.2 }, bt.2 ++ sq.2)

/-- Embedding of `gatherWorktreeDisplayItems` (index.ts lines 1626-1656). -/
def gatherWorktreeDisplayItemsM (w : World) (repo : RepoInfo) :
    List WorktreeInfo → List WorktreeDisplayItem × List Event
  | [] => ([], [])
  | wt :: rest =>
    let one := gatherOneM w repo wt
    let r := gatherWorktreeDisplayItemsM w repo rest
    (one.1 :: r.1, one.2 ++ r.2)

/-- Embedding of `handleList` (index.ts lines 1695-1793). The interactive
list view is driven by the world\x27s `listUiChoice` oracle: `none` is a
cancelled view, `some (isArchive, idx)` selects the item at `idx` (looked
up by its branch value through the display map, where a later duplicate
branch wins, as in the `Map` of line 1726). -/
def handleListM (w : World) : Except String Unit × List Event :=
  let repoq := getRepoInfoM w w.cwd
  match repoq.1 with
  | .error m => (.error m, repoq.2)
  | .ok repo =>
    let lsq := listWorktreesM w repo.mainRoot
    match lsq.1 with
    | .error m => (.error m, repoq.2 ++ lsq.2)
    | .ok worktrees =>
      let g := gatherWorktreeDisplayItemsM w repo worktrees
      let items := g.1
      if ¬w.hasUI then (.ok (), repoq.2 ++ lsq.2 ++ g.2)
      else
        match w.listUiChoice with
        | none => (.ok (), repoq.2 ++ lsq.2 ++ g.2)
        | some choice =>
          match items.get? choice.2 with
          | none => (.ok (), repoq.2 ++ lsq.2 ++ g.2)
          | some sel =>
            match (items.filter (fun it => it.branch == sel.branch)).getLast? with
            | none => (.ok (), repoq.2 ++ lsq.2 ++ g.2)
            | some item =>
              if choice.1 then
                let dmq := getDefaultMainBranchM w repo.mainRoot
                let aq := archiveWorktreeM w repo item.branch DirtyAction.prompt dmq.1
                  (some item.wt)
                match aq.1 with
                | .error m => (.error m, repoq.2 ++ lsq.2 ++ g.2 ++ dmq.2 ++ aq.2)
                | .ok _ => (.ok (), repoq.2 ++ lsq.2 ++ g.2 ++ dmq.2 ++ aq.2)
              else
                if w.realp item.wt.path == w.realp repo.currentRoot then
                  (.ok (), repoq.2 ++ lsq.2 ++ g.2 ++
                    [Event.notifyEv "Already in this worktree" "info"])
                else
                  let op := openSessionInDirectoryM w item.wt.path
                  (.ok (), repoq.2 ++ lsq.2 ++ g.2 ++ op.2)

/-! ## Trace predicates for claim C7 -/

/-- Is this event a registry read (`git worktree list --porcelain`)? -/
def isWtListEv : Event → Bool
  | .proc p args _ _ => p == "git" && args == ["worktree", "list", "--porcelain"]
  | _ => false

/-- Is this event a registry prune (`git worktree prune`)? -/
def isWtPruneEv : Event → Bool
  | .proc p args _ _ => p == "git" && args == ["worktree", "prune"]
  | _ => false

/-- The trace contains no registry read. -/
def noListEvents (tr : List Event) : Bool := tr.all (fun e => !isWtListEv e)

/-- Scanner for "some prune precedes every registry read": `seen` records
whether a prune has already appeared. -/
def pruneBeforeReads : Bool → List Event → Bool
  | _, [] => true
  | seen, e :: r =>
    if isWtListEv e then seen && pruneBeforeReads seen r
    else pruneBeforeReads (seen || isWtPruneEv e) r

lemma pruneBeforeReads_true : ∀ tr : List Event, pruneBeforeReads true tr = true := by
  intro tr
  induction tr with
  | nil => rfl
  | cons e r ih =>
    rw [show pruneBeforeReads true (e :: r) =
      (if isWtListEv e then true && pruneBeforeReads true r
       else pruneBeforeReads (true || isWtPruneEv e) r) from rfl]
    rw [Bool.true_or, Bool.true_and, ih]
    split <;> rfl

lemma scan_mono (B : List Event) (h : pruneBeforeReads false B = true) (s : Bool) :
    pruneBeforeReads s B = true := by
  cases s
  · exact h
  · exact pruneBeforeReads_true B

lemma scan_append_noList :
    ∀ (A : List Event), noListEvents A = true → ∀ (s : Bool) (B : List Event),
      pruneBeforeReads s (A ++ B) = pruneBeforeReads (s || A.any isWtPruneEv) B := by
  intro A
  induction A with
  | nil =>
    intro _ s B
    rw [List.nil_append, List.any_nil, Bool.or_false]
  | cons e r ih =>
    intro hA s B
    rw [noListEvents, List.all_cons, Bool.and_eq_true, Bool.not_eq_true'] at hA
    rw [List.cons_append]
    rw [show pruneBeforeReads s (e :: (r ++ B)) =
      (if isWtListEv e then s && pruneBeforeReads s (r ++ B)
       else pruneBeforeReads (s || isWtPruneEv e) (r ++ B)) from rfl]
    rw [hA.1]
    simp only [Bool.false_eq_true, if_false]
    rw [ih hA.2 (s || isWtPruneEv e) B, List.any_cons, Bool.or_assoc]

lemma scan_noList (A : List Event) (hA : noListEvents A = true) (s : Bool) :
    pruneBeforeReads s A = true := by
  have := scan_append_noList A hA s []
  rw [List.append_nil] at this
  rw [this]
  rfl

lemma scan_prefix_noList (A B : List Event) (hA : noListEvents A = true)
    (hB : pruneBeforeReads false B = true) (s : Bool) :
    pruneBeforeReads s (A ++ B) = true := by
  rw [scan_append_noList A hA s B]
  exact scan_mono B hB _

lemma scan_prune_head (root : String) (c : Int) (B : List Event) (s : Bool) :
    pruneBeforeReads s (Event.proc "git" ["worktree", "prune"] root c :: B) = true := by
  rw [show pruneBeforeReads s (Event.proc "git" ["worktree", "prune"] root c :: B) =
    pruneBeforeReads (s || true) B from rfl]
  rw [Bool.or_true]
  exact pruneBeforeReads_true B

lemma scan_prune_front (w : World) (root : String) (B : List Event) (s : Bool) :
    pruneBeforeReads s ((pruneWorktreesM w root).2 ++ B) = true := by
  rw [show (pruneWorktreesM w root).2 ++ B =
    Event.proc "git" ["worktree", "prune"] root
      (w.exec "git" ["worktree", "prune"] root).code :: B from rfl]
  exact scan_prune_head root _ B s

/-- The repository-discovery trace reads no registry. -/
lemma noList_repoInfo (w : World) (cwd : String) :
    noListEvents (getRepoInfoM w cwd).2 = true := by
  simp only [getRepoInfoM, mustGitStdoutM, gitM]
  repeat' split
  all_goals rfl

/-- The default-branch-discovery trace reads no registry. -/
lemma noList_defaultMain (w : World) (root : String) :
    noListEvents (getDefaultMainBranchM w root).2 = true := by
  simp only [getDefaultMainBranchM, defaultMainLoopM, localBranchExistsM, gitM]
  repeat' split
  all_goals rfl

@[simp] lemma noListEvents_append (A B : List Event) :
    noListEvents (A ++ B) = (noListEvents A && noListEvents B) := by
  simp [noListEvents, List.all_append]

lemma handleNewNamedM_scan (w : World) (b : String) (tokens : List String)
    (inputs : List (Option String)) (pre : List Event) (hpre : noListEvents pre = true) :
    pruneBeforeReads false (handleNewNamedM w b tokens inputs pre).2 = true := by
  simp only [handleNewNamedM]
  split
  · apply scan_noList
    rw [noListEvents_append, hpre, Bool.true_and]
    split <;> rfl
  · split
    · apply scan_noList
      rw [noListEvents_append, hpre, Bool.true_and]
      exact noList_repoInfo w w.cwd
    · rw [List.append_assoc, List.append_assoc, List.append_assoc]
      exact scan_prefix_noList _ _ hpre
        (scan_prefix_noList _ _ (noList_repoInfo w w.cwd)
          (scan_prefix_noList _ _ (noList_defaultMain w _)
            (scan_prune_front w _ _ false) false) false) false

lemma handleNewM_scan (w : World) (args : String) (inputs : List (Option String)) :
    pruneBeforeReads false (handleNewM w args inputs).2 = true := by
  simp only [handleNewM]
  split
  · split
    · rfl
    · split
      · rfl
      · split
        · rfl
        · exact handleNewNamedM_scan w _ _ _ _ rfl
  · exact handleNewNamedM_scan w _ _ _ _ rfl

lemma handleArchiveNamedM_scan (w : World) (b : String) (pre : List Event)
    (hpre : noListEvents pre = true) :
    pruneBeforeReads false (handleArchiveNamedM w b pre).2 = true := by
  simp only [handleArchiveNamedM]
  split
  · apply scan_noList
    rw [noListEvents_append, hpre, Bool.true_and]
    split <;> rfl
  · split
    · apply scan_noList
      rw [noListEvents_append, hpre, Bool.true_and]
      exact noList_repoInfo w w.cwd
    · rw [List.append_assoc, List.append_assoc, List.append_assoc]
      exact scan_prefix_noList _ _ hpre
        (scan_prefix_noList _ _ (noList_repoInfo w w.cwd)
          (scan_prefix_noList _ _ (noList_defaultMain w _)
            (scan_prune_front w _ _ false) false) false) false

lemma handleArchiveM_scan (w : World) (args : String) (inputs : List (Option String)) :
    pruneBeforeReads false (handleArchiveM w args inputs).2 = true := by
  simp only [handleArchiveM]
  split
  · split
    · rfl
    · split
      · rfl
      · split
        · rfl
        · exact handleArchiveNamedM_scan w _ _ rfl
  · exact handleArchiveNamedM_scan w _ _ rfl

lemma handleCleanM_scan (w : World) :
    pruneBeforeReads false (handleCleanM w).2 = true := by
  simp only [handleCleanM]
  split
  · rfl
  · split
    · exact scan_noList _ (noList_repoInfo w w.cwd) false
    · next repo heq =>
      split
      · apply scan_noList
        simp only [noListEvents_append, noList_repoInfo w w.cwd,
          noList_defaultMain w repo.mainRoot, Bool.true_and]
        rw [show noListEvents (gitM w repo.mainRoot ["remote"]).2 = true from rfl,
          Bool.true_and]
        repeat' split
        all_goals rfl
      · rw [List.append_assoc, List.append_assoc, List.append_assoc, List.append_assoc]
        exact scan_prefix_noList _ _ (noList_repoInfo w w.cwd)
          (scan_prefix_noList _ _ (noList_defaultMain w _)
            (scan_prefix_noList _ _ (by rfl)
              (scan_prefix_noList _ _ (by repeat' split
                                          all_goals rfl)
                (scan_prune_front w _ _ false) false) false) false) false

/-- C7 (amended): in the new, archive and clean operations, for every
world, argument string and scripted inputs, a best-effort registry prune
precedes every registry read in the trace. The list operation gives the
counterexample to the original claim. -/
theorem prune_before_reads_new_archive_clean (w : World) (args : String)
    (inputs : List (Option String)) :
    pruneBeforeReads false (handleNewM w args inputs).2 = true ∧
    pruneBeforeReads false (handleArchiveM w args inputs).2 = true ∧
    pruneBeforeReads false (handleCleanM w).2 = true :=
  ⟨handleNewM_scan w args inputs, handleArchiveM_scan w args inputs, handleCleanM_scan w⟩

/-- C7 counterexample: in a concrete world, the list operation reads the
worktree registry with no prune anywhere before it, refuting "prune is
called before every read" for all four operations. -/
theorem list_reads_without_prune :
    pruneBeforeReads false (handleListM cleanWorld).2 = false := by rfl

end Worktree
